import Mathlib

/-!
Shallow embedding of `Signals/pyCode/Predictors/ShortConviction.py`.

The script is a linear pandas pipeline over monthly panel data.  We model a
float64 cell of a pandas column by the type `Vp ℚ`: either `nan` (pandas
null), a signed infinity, or an exact number.  Arithmetic mirrors IEEE-754
special-value semantics (which is what numpy/pandas implement), idealized to
exact rational arithmetic for finite values.  The cross-sectional
standardization step divides by a sample standard deviation, i.e. a real
square root, so the columns produced from that point on live in `Vp ℝ`.

Tables are lists of records; the two `pd.merge(..., validate="1:1")` calls
are modelled as fallible functions that return an error exactly when a merge
key is duplicated on either side, as pandas' validation does.
-/

namespace ShortConvictionModel

/-- A float cell of a pandas column, idealized to exact arithmetic:
`nan` (pandas missing value), positive or negative infinity, or a finite
number. -/
inductive Vp (α : Type) where
  | nan : Vp α
  | pinf : Vp α
  | ninf : Vp α
  | num : α → Vp α
deriving DecidableEq, Repr

/-- Rational-valued cells: the data plane of the pipeline before
standardization. -/
abbrev V := Vp ℚ

/-- Whether a cell is NaN (pandas `isna`; infinities are *not* na). -/
def vIsNan {α : Type} : Vp α → Bool
  | Vp.nan => true
  | _ => false

/-- Pandas `notna`: true for finite numbers and for infinities. -/
def vNotna {α : Type} (v : Vp α) : Bool := !(vIsNan v)

/-- Whether a cell is positive infinity. -/
def vIsPinf {α : Type} : Vp α → Bool
  | Vp.pinf => true
  | _ => false

/-- Whether a cell is negative infinity. -/
def vIsNinf {α : Type} : Vp α → Bool
  | Vp.ninf => true
  | _ => false

/-- IEEE-style negation of a cell. -/
def vNeg {α : Type} [Neg α] : Vp α → Vp α
  | Vp.nan => Vp.nan
  | Vp.pinf => Vp.ninf
  | Vp.ninf => Vp.pinf
  | Vp.num a => Vp.num (-a)

/-- IEEE-style addition: NaN propagates, `∞ + (−∞)` is NaN. -/
def vAdd {α : Type} [Add α] : Vp α → Vp α → Vp α
  | Vp.nan, _ => Vp.nan
  | _, Vp.nan => Vp.nan
  | Vp.pinf, Vp.ninf => Vp.nan
  | Vp.ninf, Vp.pinf => Vp.nan
  | Vp.pinf, _ => Vp.pinf
  | Vp.ninf, _ => Vp.ninf
  | Vp.num _, Vp.pinf => Vp.pinf
  | Vp.num _, Vp.ninf => Vp.ninf
  | Vp.num a, Vp.num b => Vp.num (a + b)

/-- IEEE-style subtraction, as addition of the negation. -/
def vSub {α : Type} [Add α] [Neg α] (x y : Vp α) : Vp α := vAdd x (vNeg y)

/-- IEEE-style multiplication: NaN propagates, `∞ × 0` is NaN, otherwise
infinities follow the sign rule. -/
def vMul {α : Type} [Mul α] [Zero α] [LT α]
    [DecidableRel ((· < ·) : α → α → Prop)] : Vp α → Vp α → Vp α
  | Vp.nan, _ => Vp.nan
  | _, Vp.nan => Vp.nan
  | Vp.pinf, Vp.pinf => Vp.pinf
  | Vp.pinf, Vp.ninf => Vp.ninf
  | Vp.ninf, Vp.pinf => Vp.ninf
  | Vp.ninf, Vp.ninf => Vp.pinf
  | Vp.pinf, Vp.num b => if 0 < b then Vp.pinf else if b < 0 then Vp.ninf else Vp.nan
  | Vp.ninf, Vp.num b => if 0 < b then Vp.ninf else if b < 0 then Vp.pinf else Vp.nan
  | Vp.num a, Vp.pinf => if 0 < a then Vp.pinf else if a < 0 then Vp.ninf else Vp.nan
  | Vp.num a, Vp.ninf => if 0 < a then Vp.ninf else if a < 0 then Vp.pinf else Vp.nan
  | Vp.num a, Vp.num b => Vp.num (a * b)

/-- IEEE-style division with an (unsigned) zero: `0/0` and `∞/∞` are NaN,
a nonzero number divided by zero is a signed infinity (this is what
numpy/pandas float division does, with a warning but no exception), and a
finite number divided by infinity is zero. -/
def vDiv {α : Type} [Div α] [Zero α] [DecidableEq α] [LT α]
    [DecidableRel ((· < ·) : α → α → Prop)] : Vp α → Vp α → Vp α
  | Vp.nan, _ => Vp.nan
  | _, Vp.nan => Vp.nan
  | Vp.pinf, Vp.pinf => Vp.nan
  | Vp.pinf, Vp.ninf => Vp.nan
  | Vp.ninf, Vp.pinf => Vp.nan
  | Vp.ninf, Vp.ninf => Vp.nan
  | Vp.pinf, Vp.num b => if b < 0 then Vp.ninf else Vp.pinf
  | Vp.ninf, Vp.num b => if b < 0 then Vp.pinf else Vp.ninf
  | Vp.num _, Vp.pinf => Vp.num 0
  | Vp.num _, Vp.ninf => Vp.num 0
  | Vp.num a, Vp.num b =>
      if b = 0 then (if a = 0 then Vp.nan else if 0 < a then Vp.pinf else Vp.ninf)
      else Vp.num (a / b)

/-- `Series.clip(lo, hi)`: NaN passes through, everything else is saturated
into `[lo, hi]` (in particular `±∞` becomes the corresponding bound). -/
def vClip {α : Type} [Min α] [Max α] (lo hi : α) : Vp α → Vp α
  | Vp.nan => Vp.nan
  | Vp.pinf => Vp.num hi
  | Vp.ninf => Vp.num lo
  | Vp.num a => Vp.num (max lo (min a hi))

/-- Elementwise `>` between cells, as pandas computes it: any comparison
with NaN is `False`. -/
def vGt {α : Type} [LT α] [DecidableRel ((· < ·) : α → α → Prop)] :
    Vp α → Vp α → Bool
  | Vp.nan, _ => false
  | _, Vp.nan => false
  | Vp.pinf, Vp.pinf => false
  | Vp.pinf, _ => true
  | _, Vp.pinf => false
  | Vp.ninf, _ => false
  | Vp.num _, Vp.ninf => true
  | Vp.num a, Vp.num b => decide (b < a)

/-- The finite values of a column, in order. -/
def numVals {α : Type} (xs : List (Vp α)) : List α :=
  xs.filterMap fun v => match v with
    | Vp.num a => some a
    | _ => none

/-- The number of non-null cells of a column (pandas skips NaN when
aggregating). -/
def vCount {α : Type} (xs : List (Vp α)) : ℕ :=
  (xs.filter fun v => vNotna v).length

/-- Mean of a list of numbers (`0` for the empty list, which is guarded
everywhere it is used). -/
def sampleMean {α : Type} [Field α] (l : List α) : α :=
  l.sum / (l.length : α)

/-- Sample variance (`ddof = 1`, pandas' default) of a list of numbers. -/
def sampleVar {α : Type} [Field α] (l : List α) : α :=
  ((l.map fun x => (x - sampleMean l) ^ 2).sum) / ((l.length : α) - 1)

/-- Pandas `GroupBy.mean` over one group: skips NaN; an infinity dominates;
opposite infinities (or an empty group) give NaN. -/
def vMean {α : Type} [Field α] (xs : List (Vp α)) : Vp α :=
  if xs.any vIsPinf then (if xs.any vIsNinf then Vp.nan else Vp.pinf)
  else if xs.any vIsNinf then Vp.ninf
  else if vCount xs = 0 then Vp.nan
  else Vp.num (sampleMean (numVals xs))

/-- Pandas `GroupBy.std` over one group (`ddof = 1`): skips NaN, NaN when
fewer than two non-null values or when an infinity is present, otherwise the
real square root of the sample variance. -/
noncomputable def vStd (xs : List V) : Vp ℝ :=
  if xs.any vIsPinf || xs.any vIsNinf then Vp.nan
  else if vCount xs ≤ 1 then Vp.nan
  else Vp.num (Real.sqrt ((sampleVar (numVals xs) : ℚ) : ℝ))

/-- Cast a rational cell to a real cell. -/
def toVR : V → Vp ℝ
  | Vp.nan => Vp.nan
  | Vp.pinf => Vp.pinf
  | Vp.ninf => Vp.ninf
  | Vp.num q => Vp.num (q : ℝ)

/-- A row of `SignalMasterTable.parquet`, restricted to the loaded
projection `[permno, gvkey, time_avail_m, ret]`.  `gvkey` is nullable;
`time_avail_m` is a calendar-month index (consecutive integers are
consecutive months). -/
structure MasterRow where
  permno : ℤ
  gvkey : Option ℤ
  time_avail_m : ℤ
  ret : V
deriving DecidableEq, Repr

/-- A row of `monthlyCRSP.parquet`, projection `[permno, time_avail_m,
shrout]`. -/
structure CrspRow where
  permno : ℤ
  time_avail_m : ℤ
  shrout : V
deriving DecidableEq, Repr

/-- A row of `monthlyShortInterest.parquet`, projection `[gvkey,
time_avail_m, shortint]`. -/
structure ShortRow where
  gvkey : ℤ
  time_avail_m : ℤ
  shortint : V
deriving DecidableEq, Repr

/-- A row of the working dataframe `df`, with every column the script ever
assigns before standardization.  Columns not yet computed hold NaN. -/
structure Obs where
  permno : ℤ
  gvkey : Option ℤ
  time_avail_m : ℤ
  ret : V
  shrout : V
  shortint : V := Vp.nan
  SI_ratio : V := Vp.nan
  ret_lag1 : V := Vp.nan
  ret_lag2 : V := Vp.nan
  SI_ratio_lag2 : V := Vp.nan
  cumret_2m : V := Vp.nan
  SI_pct_change : V := Vp.nan
  ShortConviction_raw : V := Vp.nan
deriving DecidableEq, Repr

/-- A row of `df` after the monthly-stats merge and the standardization
step: the `mean`, `std` and `ShortConviction` columns are added.  From the
`std` column on, values are reals (square roots). -/
structure SRow extends Obs where
  mean : V
  std : Vp ℝ
  ShortConviction : Vp ℝ

/-- A row of the final frame passed to `save_predictor`. -/
structure OutRow where
  permno : ℤ
  time_avail_m : ℤ
  ShortConviction : Vp ℝ

/-- Equality of merge results is decidable (used to evaluate the validated
merges on concrete instances). -/
instance {eps alpha : Type} [DecidableEq eps] [DecidableEq alpha] :
    DecidableEq (Except eps alpha) := fun x y =>
  match x, y with
  | Except.ok a, Except.ok b =>
      if h : a = b then isTrue (by rw [h])
      else isFalse (by intro hc; exact h (Except.ok.inj hc))
  | Except.error e, Except.error f =>
      if h : e = f then isTrue (by rw [h])
      else isFalse (by intro hc; exact h (Except.error.inj hc))
  | Except.ok _, Except.error _ => isFalse (by intro hc; exact Except.noConfusion hc)
  | Except.error _, Except.ok _ => isFalse (by intro hc; exact Except.noConfusion hc)

/-- Merge key of the master table. -/
def masterKey (m : MasterRow) : ℤ × ℤ := (m.permno, m.time_avail_m)

/-- Merge key of the CRSP table. -/
def crspKey (c : CrspRow) : ℤ × ℤ := (c.permno, c.time_avail_m)

/-- The row produced by the first merge for a matched master/CRSP pair. -/
def mkObs (m : MasterRow) (c : CrspRow) : Obs :=
  { permno := m.permno, gvkey := m.gvkey, time_avail_m := m.time_avail_m,
    ret := m.ret, shrout := c.shrout }

/-- `pd.merge(signal_master, monthly_crsp, on=["permno", "time_avail_m"],
how="inner", validate="1:1")`: raises (here: returns an error) when the
merge key is duplicated on either side; otherwise each master row that has a
CRSP match produces exactly one row, and unmatched master rows are dropped
silently.  Row order follows the left (master) table, as pandas does for a
one-to-one inner merge. -/
def mergeCrsp (sm : List MasterRow) (cr : List CrspRow) :
    Except String (List Obs) :=
  if (sm.map masterKey).Nodup ∧ (cr.map crspKey).Nodup then
    Except.ok (sm.filterMap fun m =>
      (cr.find? fun c =>
        c.permno == m.permno && c.time_avail_m == m.time_avail_m).map
        fun c => mkObs m c)
  else Except.error "Merge keys are not unique; not a one-to-one merge"

/-- The rows set aside by `df_missing_gvkey = df[df["gvkey"].isna()]`. -/
def missingGvkey (df : List Obs) : List Obs :=
  df.filter fun r => r.gvkey == none

/-- The rows kept by `df = df[df["gvkey"].notna()]`. -/
def validGvkey (df : List Obs) : List Obs :=
  df.filter fun r => !(r.gvkey == none)

/-- `pd.merge(df, monthly_short, on=["gvkey", "time_avail_m"], how="left",
validate="1:1")`: errors when the key is duplicated on either side;
otherwise every left row survives exactly once, with `shortint` NaN when
there is no short-interest match. -/
def mergeShort (df : List Obs) (ms : List ShortRow) :
    Except String (List Obs) :=
  if (df.map fun r => (r.gvkey, r.time_avail_m)).Nodup ∧
     (ms.map fun s => ((some s.gvkey : Option ℤ), s.time_avail_m)).Nodup then
    Except.ok (df.map fun r =>
      match ms.find? fun s =>
          ((some s.gvkey : Option ℤ) == r.gvkey) && s.time_avail_m == r.time_avail_m with
      | some s => { r with shortint := s.shortint }
      | none => { r with shortint := Vp.nan })
  else Except.error "Merge keys are not unique; not a one-to-one merge"

/-- Step 1: `df["SI_ratio"] = df["shortint"] / df["shrout"]` — the ratio is
computed before any lagging. -/
def addSIRatio (df : List Obs) : List Obs :=
  df.map fun r => { r with SI_ratio := vDiv r.shortint r.shrout }

/-- Step 2: `df = df.sort_values(["permno", "time_avail_m"])` — a stable
sort by entity then month (modelled by a stable insertion sort, which is all
the sort contributes here because the lag lookup below is order
independent). -/
def sortPanel (df : List Obs) : List Obs :=
  df.insertionSort fun a b =>
    a.permno < b.permno ∨ (a.permno = b.permno ∧ a.time_avail_m ≤ b.time_avail_m)

/-- Modelled from the spec: the external lag utility `stata_multi_lag`
(imported from `utils.stata_replication`, whose source is not part of this
snapshot).  Per the spec's Lag Engine contract, the lag of a column for
entity `p` at month `t` is the column's value on the record of that same
entity exactly `n` calendar months earlier, or null when no such record
exists — calendar gaps are not bridged. -/
def lagOf (df : List Obs) (p t n : ℤ) (col : Obs → V) : V :=
  match df.find? fun s => s.permno == p && s.time_avail_m == t - n with
  | some s => col s
  | none => Vp.nan

/-- Step 3a: `df = stata_multi_lag(df, "permno", "time_avail_m", "ret",
[1, 2])`. -/
def addRetLags (df : List Obs) : List Obs :=
  df.map fun r =>
    { r with ret_lag1 := lagOf df r.permno r.time_avail_m 1 (fun s => s.ret),
             ret_lag2 := lagOf df r.permno r.time_avail_m 2 (fun s => s.ret) }

/-- Step 3b: `df = stata_multi_lag(df, "permno", "time_avail_m", "SI_ratio",
[2])` — the already-computed ratio is lagged as a whole. -/
def addSIRatioLag2 (df : List Obs) : List Obs :=
  df.map fun r =>
    { r with SI_ratio_lag2 := lagOf df r.permno r.time_avail_m 2 (fun s => s.SI_ratio) }

/-- Step 4: `df["cumret_2m"] = (1 + df["ret_lag1"]) * (1 + df["ret_lag2"]) - 1`. -/
def addCumret (df : List Obs) : List Obs :=
  df.map fun r =>
    { r with cumret_2m := (vSub (vMul (vAdd (Vp.num 1) r.ret_lag1)
        (vAdd (Vp.num 1) r.ret_lag2)) (Vp.num 1)) }

/-- Step 5: `df["SI_pct_change"] = (df["SI_ratio"] - df["SI_ratio_lag2"]) /
df["SI_ratio_lag2"]`. -/
def addSIPct (df : List Obs) : List Obs :=
  df.map fun r =>
    { r with SI_pct_change := vDiv (vSub r.SI_ratio r.SI_ratio_lag2) r.SI_ratio_lag2 }

/-- Step 6: `df["ShortConviction_raw"] = -df["SI_pct_change"] * df["cumret_2m"]`. -/
def addRaw (df : List Obs) : List Obs :=
  df.map fun r =>
    { r with ShortConviction_raw := vMul (vNeg r.SI_pct_change) r.cumret_2m }

/-- Step 7: `df["ShortConviction_raw"] = df["ShortConviction_raw"].clip(-3, 3)`. -/
def addClip (df : List Obs) : List Obs :=
  df.map fun r =>
    { r with ShortConviction_raw := vClip (-3) 3 r.ShortConviction_raw }

/-- Steps 1-3 of the signal construction: ratio, sort, lags. -/
def laggedStage (df : List Obs) : List Obs :=
  addSIRatioLag2 (addRetLags (sortPanel (addSIRatio df)))

/-- Steps 1-6 of the signal construction: the raw factor before
winsorization. -/
def rawStage (df : List Obs) : List Obs :=
  addRaw (addSIPct (addCumret (laggedStage df)))

/-- Steps 1-7 of the signal construction, from the merged frame to the
clipped raw factor. -/
def transform (df : List Obs) : List Obs :=
  addClip (rawStage df)

/-- The `ShortConviction_raw` column of the rows of month `t`, in frame
order: the group that `df.groupby("time_avail_m")` aggregates. -/
def monthRaws (df : List Obs) (t : ℤ) : List V :=
  (df.filter fun r => r.time_avail_m == t).map fun r => r.ShortConviction_raw

/-- The non-null clipped raw values of month `t` — the sample over which the
monthly mean and standard deviation are taken. -/
def cohortVals (df : List Obs) (t : ℤ) : List ℚ :=
  numVals (monthRaws df t)

/-- Step 8a: `monthly_stats = df.groupby("time_avail_m")
["ShortConviction_raw"].agg(["mean", "std"])` followed by the left merge of
`mean` and `std` back onto `df` by month (every month of `df` is in the
group index, so the left merge populates every row). -/
noncomputable def addStats (df : List Obs) : List SRow :=
  df.map fun r =>
    { toObs := r,
      mean := vMean (monthRaws df r.time_avail_m),
      std := vStd (monthRaws df r.time_avail_m),
      ShortConviction := Vp.nan }

/-- Step 8b: `df["ShortConviction"] = np.where((df["std"] > 0) &
df["ShortConviction_raw"].notna(), (df["ShortConviction_raw"] - df["mean"])
/ df["std"], np.nan)`. -/
noncomputable def addSC (l : List SRow) : List SRow :=
  l.map fun r =>
    { r with ShortConviction := (if vGt r.std (Vp.num 0) && vNotna r.ShortConviction_raw
        then vDiv (toVR (vSub r.ShortConviction_raw r.mean)) r.std
        else Vp.nan) }

/-- Step 8, whole: monthly stats then standardization. -/
noncomputable def scStage (df : List Obs) : List SRow :=
  addSC (addStats df)

/-- Step 9's projection of a standardized row to the output columns. -/
def mkOut (r : SRow) : OutRow :=
  { permno := r.permno, time_avail_m := r.time_avail_m,
    ShortConviction := r.ShortConviction }

/-- Steps 9-10: project the standardized frame and concatenate back the
null-gvkey rows with `ShortConviction = np.nan`.  `outputFrame df1 df2` is the
final frame given the first-merge result `df1` and the second-merge result
`df2`. -/
noncomputable def outputFrame (df1 df2 : List Obs) : List OutRow :=
  (scStage (transform df2)).map mkOut ++
    (missingGvkey df1).map fun r =>
      { permno := r.permno, time_avail_m := r.time_avail_m,
        ShortConviction := Vp.nan }

/-- The whole script, from the three loaded tables to the frame handed to
`save_predictor`: both validated merges, the gvkey carve-out, the signal
construction and the standardization.  Fails exactly where pandas would
raise a `MergeError`. -/
noncomputable def pipeline (sm : List MasterRow) (cr : List CrspRow)
    (ms : List ShortRow) : Except String (List OutRow) := do
  let df1 ← mergeCrsp sm cr
  let df2 ← mergeShort (validGvkey df1) ms
  pure (outputFrame df1 df2)

/-- Well-formedness of the merged input data, as floats loaded from the
source tables always satisfy: returns and short interest are finite or
missing (never ±∞), and shares outstanding are positive or missing. -/
def wellFormed (df : List Obs) : Bool :=
  df.all fun r =>
    !(vIsPinf r.ret) && !(vIsNinf r.ret) &&
    (!(vIsPinf r.shortint) && !(vIsNinf r.shortint)) &&
    (match r.shrout with
      | Vp.nan => true
      | Vp.num q => decide (0 < q)
      | _ => false)

/-- The non-null standardized values of month `t`, in frame order: the
sample whose mean and standard deviation the spec says are 0 and 1. -/
noncomputable def scMonthVals (df : List Obs) (t : ℤ) : List ℝ :=
  numVals (((scStage df).filter fun r => r.time_avail_m == t).map fun r => r.ShortConviction)

/-- A small concrete instance of the three input tables.  Securities 1-4
have gvkeys 1-4 and full histories over months 0-2 with unit shares;
security 5 has a null gvkey; security 9 has no CRSP match.  Short interest:
security 1 has `shortint = 0` at month 0 (a zero lagged ratio) and `1` at
month 2; security 2 has `1` at months 0 and 2; security 3 has `1` at month 0
and `2` at month 2; security 4 has `1` at month 0 and no record at month 2
(a missing current short interest). -/
def smX : List MasterRow :=
  [⟨1, some 1, 0, Vp.num 0⟩, ⟨1, some 1, 1, Vp.num 1⟩, ⟨1, some 1, 2, Vp.num 0⟩,
   ⟨2, some 2, 0, Vp.num 0⟩, ⟨2, some 2, 1, Vp.num 0⟩, ⟨2, some 2, 2, Vp.num 0⟩,
   ⟨3, some 3, 0, Vp.num 0⟩, ⟨3, some 3, 1, Vp.num 1⟩, ⟨3, some 3, 2, Vp.num 0⟩,
   ⟨4, some 4, 0, Vp.num 0⟩, ⟨4, some 4, 1, Vp.num 0⟩, ⟨4, some 4, 2, Vp.num 0⟩,
   ⟨5, none, 2, Vp.num 0⟩,
   ⟨9, some 9, 0, Vp.num 0⟩]

/-- CRSP shares outstanding for the instance `smX`: one share for every
security-month except security 9, which has no CRSP row at all. -/
def crX : List CrspRow :=
  [⟨1, 0, Vp.num 1⟩, ⟨1, 1, Vp.num 1⟩, ⟨1, 2, Vp.num 1⟩,
   ⟨2, 0, Vp.num 1⟩, ⟨2, 1, Vp.num 1⟩, ⟨2, 2, Vp.num 1⟩,
   ⟨3, 0, Vp.num 1⟩, ⟨3, 1, Vp.num 1⟩, ⟨3, 2, Vp.num 1⟩,
   ⟨4, 0, Vp.num 1⟩, ⟨4, 1, Vp.num 1⟩, ⟨4, 2, Vp.num 1⟩,
   ⟨5, 2, Vp.num 1⟩]

/-- Short-interest table for the instance `smX`. -/
def msX : List ShortRow :=
  [⟨1, 0, Vp.num 0⟩, ⟨1, 2, Vp.num 1⟩,
   ⟨2, 0, Vp.num 1⟩, ⟨2, 2, Vp.num 1⟩,
   ⟨3, 0, Vp.num 1⟩, ⟨3, 2, Vp.num 2⟩,
   ⟨4, 0, Vp.num 1⟩]

/-- The first-merge result on the concrete instance. -/
def df1X : List Obs := (mergeCrsp smX crX).toOption.getD []

/-- The second-merge result (valid-gvkey rows joined to short interest) on
the concrete instance. -/
def df2X : List Obs := (mergeShort (validGvkey df1X) msX).toOption.getD []

/-- The concrete instance after the whole signal construction (steps 1-7). -/
def tX : List Obs := transform df2X

/-- A tiny one-month frame whose clipped raw column is `[0, 1, 2]`: its
cohort has mean 1, sample variance 1 and hence sample standard deviation
exactly 1.  Used to exercise the standardization stage at a concrete
input. -/
def wRows : List Obs :=
  [{ permno := 1, gvkey := some 1, time_avail_m := 0, ret := Vp.nan,
     shrout := Vp.nan, ShortConviction_raw := Vp.num 0 },
   { permno := 2, gvkey := some 2, time_avail_m := 0, ret := Vp.nan,
     shrout := Vp.nan, ShortConviction_raw := Vp.num 1 },
   { permno := 3, gvkey := some 3, time_avail_m := 0, ret := Vp.nan,
     shrout := Vp.nan, ShortConviction_raw := Vp.num 2 }]

/-! ## Theorems -/

/-- NaN absorbs on the left of addition. -/
lemma vAdd_nan_left {α : Type} [Add α] (a : Vp α) : vAdd Vp.nan a = Vp.nan := by
  cases a <;> rfl

/-- NaN absorbs on the left of subtraction. -/
lemma vSub_nan_left {α : Type} [Add α] [Neg α] (a : Vp α) : vSub Vp.nan a = Vp.nan := by
  cases a <;> rfl

/-- NaN absorbs on the left of multiplication. -/
lemma vMul_nan_left {α : Type} [Mul α] [Zero α] [LT α]
    [DecidableRel ((· < ·) : α → α → Prop)] (a : Vp α) : vMul Vp.nan a = Vp.nan := by
  cases a <;> rfl

/-- NaN absorbs on the left of division. -/
lemma vDiv_nan_left {α : Type} [Div α] [Zero α] [DecidableEq α] [LT α]
    [DecidableRel ((· < ·) : α → α → Prop)] (a : Vp α) : vDiv Vp.nan a = Vp.nan := by
  cases a <;> rfl

/-- NaN absorbs on the right of addition. -/
lemma vAdd_nan_right {α : Type} [Add α] (a : Vp α) : vAdd a Vp.nan = Vp.nan := by
  cases a <;> rfl

/-- NaN absorbs on the right of division. -/
lemma vDiv_nan_right {α : Type} [Div α] [Zero α] [DecidableEq α] [LT α]
    [DecidableRel ((· < ·) : α → α → Prop)] (a : Vp α) : vDiv a Vp.nan = Vp.nan := by
  cases a <;> rfl

/-- NaN absorbs on the right of multiplication. -/
lemma vMul_nan_right {α : Type} [Mul α] [Zero α] [LT α]
    [DecidableRel ((· < ·) : α → α → Prop)] (a : Vp α) : vMul a Vp.nan = Vp.nan := by
  cases a <;> rfl

/-- Successful merges make the whole pipeline succeed with the assembled
output frame. -/
lemma pipeline_eq_ok (sm : List MasterRow) (cr : List CrspRow)
    (ms : List ShortRow) (df1 df2 : List Obs)
    (h1 : mergeCrsp sm cr = Except.ok df1)
    (h2 : mergeShort (validGvkey df1) ms = Except.ok df2) :
    pipeline sm cr ms = Except.ok (outputFrame df1 df2) := by
  rw [pipeline, h1]
  show Except.bind (Except.ok df1) _ = _
  rw [Except.bind, h2]
  rfl

/-- A successful second merge is the left-join map over its left input. -/
lemma mergeShort_ok_eq (df : List Obs) (ms : List ShortRow) (df2 : List Obs)
    (h : mergeShort df ms = Except.ok df2) :
    df2 = df.map fun r =>
      match ms.find? fun s =>
          ((some s.gvkey : Option ℤ) == r.gvkey) && s.time_avail_m == r.time_avail_m with
      | some s => { r with shortint := s.shortint }
      | none => { r with shortint := Vp.nan } := by
  rw [mergeShort] at h
  split at h
  · exact (Except.ok.injEq _ _ ▸ h).symm
  · exact absurd h (by simp)

/-- A successful first merge is the matched filterMap over the master
table. -/
lemma mergeCrsp_ok_eq (sm : List MasterRow) (cr : List CrspRow)
    (df1 : List Obs) (h : mergeCrsp sm cr = Except.ok df1) :
    df1 = sm.filterMap fun m =>
      (cr.find? fun c =>
        c.permno == m.permno && c.time_avail_m == m.time_avail_m).map
        fun c => mkObs m c := by
  rw [mergeCrsp] at h
  split at h
  · exact (Except.ok.injEq _ _ ▸ h).symm
  · exact absurd h (by simp)

/-- The length of a filterMap is the number of elements it keeps. -/
lemma length_filterMap_eq {α β : Type} (l : List α) (f : α → Option β) :
    (l.filterMap f).length = (l.filter fun a => (f a).isSome).length := by
  induction l with
  | nil => rfl
  | cons a t ih =>
      cases h : f a with
      | none => simp [List.filterMap_cons, h, ih]
      | some b => simp [List.filterMap_cons, h, ih]

/-- Filtering on a predicate and on its negation partitions a list. -/
lemma length_filter_partition {α : Type} (l : List α) (p : α → Bool) :
    (l.filter fun a => !(p a)).length + (l.filter p).length = l.length := by
  induction l with
  | nil => rfl
  | cons a t ih =>
      cases h : p a <;> simp [List.filter_cons, h, ← ih] <;> omega

/-- Steps 1-7 preserve the number of rows. -/
lemma transform_length (df : List Obs) : (transform df).length = df.length := by
  simp [transform, rawStage, laggedStage, addClip, addRaw, addSIPct, addCumret,
    addSIRatioLag2, addRetLags, sortPanel, addSIRatio, List.length_insertionSort]

/-- Standardization preserves the number of rows. -/
lemma scStage_length (df : List Obs) : (scStage df).length = df.length := by
  simp [scStage, addSC, addStats]

/-- The signal construction does not change the key columns, except for the
sort's reordering. -/
lemma transform_keys (df : List Obs) :
    (transform df).map (fun s => (s.permno, s.time_avail_m)) =
      (sortPanel (addSIRatio df)).map (fun s => (s.permno, s.time_avail_m)) := by
  rw [transform, rawStage, laggedStage, addClip, addRaw, addSIPct, addCumret,
    addSIRatioLag2, addRetLags]
  simp only [List.map_map]
  rfl

/-- Every row of the signal-construction output has the key of a row of its
input frame. -/
lemma transform_key (df : List Obs) (r : Obs) (hr : r ∈ transform df) :
    ∃ b ∈ df, b.permno = r.permno ∧ b.time_avail_m = r.time_avail_m := by
  have h1 : (r.permno, r.time_avail_m) ∈
      (transform df).map (fun s => (s.permno, s.time_avail_m)) :=
    List.mem_map_of_mem _ hr
  rw [transform_keys, sortPanel] at h1
  have h2 := ((List.perm_insertionSort _ (addSIRatio df)).map
    fun s => (s.permno, s.time_avail_m)).mem_iff.mp h1
  rw [addSIRatio, List.map_map] at h2
  obtain ⟨b, hb, hkey⟩ := List.mem_map.mp h2
  exact ⟨b, hb, congrArg Prod.fst hkey, congrArg Prod.snd hkey⟩

/-- Every row of the standardized frame has the key of a row of its input
frame. -/
lemma scStage_key (df : List Obs) (r : SRow) (hr : r ∈ scStage df) :
    ∃ b ∈ df, b.permno = r.permno ∧ b.time_avail_m = r.time_avail_m := by
  rw [scStage, addSC] at hr
  obtain ⟨u, hu, rfl⟩ := List.mem_map.mp hr
  rw [addStats] at hu
  obtain ⟨b, hb, rfl⟩ := List.mem_map.mp hu
  exact ⟨b, hb, rfl, rfl⟩

/-- Every row of a successful first merge carries the key of a CRSP row (its
match). -/
lemma mergeCrsp_key (sm : List MasterRow) (cr : List CrspRow)
    (df1 : List Obs) (h : mergeCrsp sm cr = Except.ok df1) (r : Obs)
    (hr : r ∈ df1) :
    ∃ c ∈ cr, c.permno = r.permno ∧ c.time_avail_m = r.time_avail_m := by
  rw [mergeCrsp_ok_eq sm cr df1 h] at hr
  obtain ⟨m, _, hmr⟩ := List.mem_filterMap.mp hr
  cases hfind : cr.find? fun c =>
      c.permno == m.permno && c.time_avail_m == m.time_avail_m with
  | none => rw [hfind] at hmr; exact absurd hmr (by simp)
  | some c =>
      rw [hfind] at hmr
      have hc := List.mem_of_find?_eq_some hfind
      have hpred := List.find?_some hfind
      rw [Bool.and_eq_true, beq_iff_eq, beq_iff_eq] at hpred
      have : mkObs m c = r := by simpa using hmr
      exact ⟨c, hc, by rw [hpred.1, ← this]; rfl, by rw [hpred.2, ← this]; rfl⟩

/-- C6: Both joins are validated as one-to-one: the first (master-to-shares)
merge and the second (short-interest) merge raise an error exactly when the
merge key is duplicated on either side, rather than silently producing
duplicated or fanned-out rows. -/
theorem merge_one_to_one_validation (sm : List MasterRow) (cr : List CrspRow)
    (df : List Obs) (ms : List ShortRow) :
    ((∃ e, mergeCrsp sm cr = Except.error e) ↔
      ¬((sm.map masterKey).Nodup ∧ (cr.map crspKey).Nodup)) ∧
    ((∃ e, mergeShort df ms = Except.error e) ↔
      ¬((df.map fun r => (r.gvkey, r.time_avail_m)).Nodup ∧
        (ms.map fun s => ((some s.gvkey : Option ℤ), s.time_avail_m)).Nodup)) := by
  constructor
  · unfold mergeCrsp
    split
    next h => simp [h]
    next h => simp [h]
  · unfold mergeShort
    split
    next h => simp [h]
    next h => simp [h]

/-- C5: the clipping step maps each row's raw factor through
`vClip (-3) 3`: nulls pass through unchanged, every non-null result lies in
`[-3, 3]`, and out-of-range values (including infinities) are saturated to
the nearest bound rather than dropped. -/
theorem clip_invariant (df : List Obs) (i : ℕ) (b : Obs)
    (hb : df[i]? = some b) :
    ∃ r, (addClip df)[i]? = some r ∧
      r.ShortConviction_raw = vClip (-3) 3 b.ShortConviction_raw ∧
      (r.ShortConviction_raw = Vp.nan ↔ b.ShortConviction_raw = Vp.nan) ∧
      (∀ q, r.ShortConviction_raw = Vp.num q → -3 ≤ q ∧ q ≤ 3) ∧
      (∀ q, b.ShortConviction_raw = Vp.num q → 3 < q →
        r.ShortConviction_raw = Vp.num 3) ∧
      (∀ q, b.ShortConviction_raw = Vp.num q → q < -3 →
        r.ShortConviction_raw = Vp.num (-3)) ∧
      (∀ q, b.ShortConviction_raw = Vp.num q → -3 ≤ q → q ≤ 3 →
        r.ShortConviction_raw = Vp.num q) ∧
      (b.ShortConviction_raw = Vp.pinf → r.ShortConviction_raw = Vp.num 3) ∧
      (b.ShortConviction_raw = Vp.ninf → r.ShortConviction_raw = Vp.num (-3)) := by
  refine ⟨{ b with ShortConviction_raw := vClip (-3) 3 b.ShortConviction_raw },
    ?_, rfl, ?_, ?_, ?_, ?_, ?_, ?_, ?_⟩
  · rw [addClip, List.getElem?_map _ df i, hb]
    rfl
  · cases b.ShortConviction_raw <;> simp [vClip]
  · cases hB : b.ShortConviction_raw with
    | nan => simp [vClip]
    | pinf => intro q hq; rw [vClip] at hq; injection hq with h; rw [← h]; norm_num
    | ninf => intro q hq; rw [vClip] at hq; injection hq with h; rw [← h]; norm_num
    | num a =>
        intro q hq
        rw [vClip] at hq
        injection hq with h
        rw [← h]
        constructor
        · exact le_max_left _ _
        · exact max_le (by norm_num) (min_le_right _ _)
  · intro q hq hgt
    rw [hq, vClip]
    have h1 : min q 3 = 3 := min_eq_right hgt.le
    rw [h1]
    have h2 : max (-3 : ℚ) 3 = 3 := max_eq_right (by norm_num)
    rw [h2]
  · intro q hq hlt
    rw [hq, vClip]
    have h1 : min q 3 = q := min_eq_left (by linarith)
    rw [h1]
    have h2 : max (-3 : ℚ) q = -3 := max_eq_left hlt.le
    rw [h2]
  · intro q hq hlo hhi
    rw [hq, vClip]
    rw [min_eq_left hhi, max_eq_right hlo]
  · intro hB; rw [hB]; rfl
  · intro hB; rw [hB]; rfl

/-- The defining equations of every raw-stage row: the raw factor, the
percentage change, the cumulative return, the ratio, and the lag linkage of
the ratio. -/
lemma rawStage_spec (df : List Obs) (r : Obs) (hr : r ∈ rawStage df) :
    r.ShortConviction_raw = vMul (vNeg r.SI_pct_change) r.cumret_2m ∧
    r.SI_pct_change = vDiv (vSub r.SI_ratio r.SI_ratio_lag2) r.SI_ratio_lag2 ∧
    r.cumret_2m = vSub (vMul (vAdd (Vp.num 1) r.ret_lag1)
      (vAdd (Vp.num 1) r.ret_lag2)) (Vp.num 1) ∧
    r.SI_ratio = vDiv r.shortint r.shrout ∧
    ((∃ s ∈ df, s.permno = r.permno ∧ s.time_avail_m = r.time_avail_m - 2 ∧
        r.SI_ratio_lag2 = vDiv s.shortint s.shrout) ∨
      ((∀ s ∈ df, ¬(s.permno = r.permno ∧ s.time_avail_m = r.time_avail_m - 2)) ∧
        r.SI_ratio_lag2 = Vp.nan)) := by
  rw [rawStage, addRaw] at hr
  obtain ⟨u, hu, rfl⟩ := List.mem_map.mp hr
  rw [addSIPct] at hu
  obtain ⟨w, hw, rfl⟩ := List.mem_map.mp hu
  rw [addCumret] at hw
  obtain ⟨x, hx, rfl⟩ := List.mem_map.mp hw
  rw [laggedStage, addSIRatioLag2] at hx
  obtain ⟨y, hy, rfl⟩ := List.mem_map.mp hx
  refine ⟨rfl, rfl, rfl, ?_, ?_⟩
  · rw [addRetLags] at hy
    obtain ⟨z, hz, rfl⟩ := List.mem_map.mp hy
    rw [sortPanel] at hz
    have hz' := (List.mem_insertionSort _).mp hz
    rw [addSIRatio] at hz'
    obtain ⟨b, _, rfl⟩ := List.mem_map.mp hz'
    rfl
  · cases hfind : (addRetLags (sortPanel (addSIRatio df))).find?
        (fun s => s.permno == y.permno && s.time_avail_m == y.time_avail_m - 2) with
    | some s =>
        left
        have hsM := List.mem_of_find?_eq_some hfind
        have hpred := List.find?_some hfind
        rw [Bool.and_eq_true, beq_iff_eq, beq_iff_eq] at hpred
        rw [addRetLags] at hsM
        obtain ⟨s1, hs1, rfl⟩ := List.mem_map.mp hsM
        rw [sortPanel] at hs1
        have hs1' := (List.mem_insertionSort _).mp hs1
        rw [addSIRatio] at hs1'
        obtain ⟨b, hb, rfl⟩ := List.mem_map.mp hs1'
        refine ⟨b, hb, hpred.1, hpred.2, ?_⟩
        show lagOf (addRetLags (sortPanel (addSIRatio df))) y.permno y.time_avail_m 2
          (fun s => s.SI_ratio) = vDiv b.shortint b.shrout
        rw [lagOf, hfind]
    | none =>
        right
        constructor
        · rintro s hs ⟨hp, ht⟩
          have h1 : ({ s with SI_ratio := vDiv s.shortint s.shrout } : Obs) ∈ addSIRatio df := by
            rw [addSIRatio]
            exact List.mem_map_of_mem _ hs
          have h2 : ({ s with SI_ratio := vDiv s.shortint s.shrout } : Obs) ∈
              sortPanel (addSIRatio df) := by
            rw [sortPanel]
            exact (List.mem_insertionSort _).mpr h1
          have h3 : ∃ v ∈ addRetLags (sortPanel (addSIRatio df)),
              v.permno = s.permno ∧ v.time_avail_m = s.time_avail_m := by
            rw [addRetLags]
            exact ⟨_, List.mem_map_of_mem _ h2, rfl, rfl⟩
          obtain ⟨v, hv, hvp, hvt⟩ := h3
          have h4 := List.find?_eq_none.mp hfind v hv
          apply h4
          simp [hvp, hvt, hp, ht]
        · show lagOf (addRetLags (sortPanel (addSIRatio df))) y.permno y.time_avail_m 2
            (fun s => s.SI_ratio) = Vp.nan
          rw [lagOf, hfind]


/-- C4 (amended): in the computation of `SI_pct_change`, a missing operand
or a `0/0` division yields null, and that null propagates silently through
the raw factor, the clipping and the standardization stages — never an
error.  A *nonzero* ratio divided by a zero lagged ratio, however, yields a
signed infinity (not null), which the clipping stage then saturates to
`±3`. -/
theorem arithmetic_null_propagation (df : List Obs) (r : Obs)
    (hr : r ∈ rawStage df) :
    (vIsNan r.SI_ratio = true ∨ vIsNan r.SI_ratio_lag2 = true →
      r.SI_pct_change = Vp.nan) ∧
    (r.SI_ratio = Vp.num 0 ∧ r.SI_ratio_lag2 = Vp.num 0 →
      r.SI_pct_change = Vp.nan) ∧
    (r.SI_pct_change = Vp.nan → r.ShortConviction_raw = Vp.nan) ∧
    (vClip (-3) 3 r.ShortConviction_raw = Vp.nan ↔
      r.ShortConviction_raw = Vp.nan) ∧
    (∀ q : ℚ, q ≠ 0 → r.SI_ratio = Vp.num q → r.SI_ratio_lag2 = Vp.num 0 →
      r.SI_pct_change = if 0 < q then Vp.pinf else Vp.ninf) ∧
    (∀ (l : List SRow) (i : ℕ) (s : SRow), l[i]? = some s →
      s.ShortConviction_raw = Vp.nan →
      ((addSC l)[i]?).map SRow.ShortConviction = some Vp.nan) := by
  rw [rawStage, addRaw] at hr
  obtain ⟨u, hu, rfl⟩ := List.mem_map.mp hr
  rw [addSIPct] at hu
  obtain ⟨w, hw, rfl⟩ := List.mem_map.mp hu
  refine ⟨?_, ?_, ?_, ?_, ?_, ?_⟩
  · intro h
    dsimp only at h
    show vDiv (vSub w.SI_ratio w.SI_ratio_lag2) w.SI_ratio_lag2 = Vp.nan
    rcases h with h | h
    · cases hs : w.SI_ratio with
      | nan => rw [vSub_nan_left]; exact vDiv_nan_left _
      | pinf => rw [hs] at h; simp [vIsNan] at h
      | ninf => rw [hs] at h; simp [vIsNan] at h
      | num a => rw [hs] at h; simp [vIsNan] at h
    · cases hs : w.SI_ratio_lag2 with
      | nan => exact vDiv_nan_right _
      | pinf => rw [hs] at h; simp [vIsNan] at h
      | ninf => rw [hs] at h; simp [vIsNan] at h
      | num a => rw [hs] at h; simp [vIsNan] at h
  · rintro ⟨h1, h2⟩
    dsimp only at h1 h2
    show vDiv (vSub w.SI_ratio w.SI_ratio_lag2) w.SI_ratio_lag2 = Vp.nan
    rw [h1, h2]
    norm_num [vSub, vNeg, vAdd, vDiv]
  · intro h
    dsimp only at h
    show vMul (vNeg (vDiv (vSub w.SI_ratio w.SI_ratio_lag2) w.SI_ratio_lag2))
      w.cumret_2m = Vp.nan
    rw [h]
    exact vMul_nan_left _
  · show vClip (-3) 3 (vMul (vNeg (vDiv (vSub w.SI_ratio w.SI_ratio_lag2)
      w.SI_ratio_lag2)) w.cumret_2m) = Vp.nan ↔ _
    cases vMul (vNeg (vDiv (vSub w.SI_ratio w.SI_ratio_lag2) w.SI_ratio_lag2))
      w.cumret_2m <;> simp [vClip]
  · intro q hq h1 h2
    dsimp only at h1 h2
    show vDiv (vSub w.SI_ratio w.SI_ratio_lag2) w.SI_ratio_lag2 = _
    rw [h1, h2]
    norm_num [vSub, vNeg, vAdd, vDiv, hq]
  · intro l i s hl hnan
    rw [addSC, List.getElem?_map _ l i, hl]
    simp [vNotna, hnan, vIsNan]

/-- C7: every record that survives the first join with a null company
identifier bypasses the short-interest branch (it is not part of the
valid-gvkey frame) and is reattached to the final output with a null
`ShortConviction`. -/
theorem missing_gvkey_preserved (sm : List MasterRow) (cr : List CrspRow)
    (ms : List ShortRow) (df1 df2 : List Obs)
    (h1 : mergeCrsp sm cr = Except.ok df1)
    (h2 : mergeShort (validGvkey df1) ms = Except.ok df2) :
    pipeline sm cr ms = Except.ok (outputFrame df1 df2) ∧
    ∀ m ∈ df1, m.gvkey = none →
      m ∉ validGvkey df1 ∧
      ({ permno := m.permno, time_avail_m := m.time_avail_m,
         ShortConviction := Vp.nan } : OutRow) ∈ outputFrame df1 df2 := by
  refine ⟨pipeline_eq_ok sm cr ms df1 df2 h1 h2, ?_⟩
  intro m hm hnone
  constructor
  · rw [validGvkey]
    intro hmem
    have := (List.mem_filter.mp hmem).2
    rw [hnone] at this
    simp at this
  · rw [outputFrame]
    apply List.mem_append_right
    apply List.mem_map.mpr
    refine ⟨m, ?_, rfl⟩
    rw [missingGvkey]
    exact List.mem_filter.mpr ⟨hm, by rw [hnone]; rfl⟩

/-- C8: the final output has exactly one row per first-merge row — the
valid-gvkey branch keeps its row count through the left join, the signal
construction and the standardization, and the null-gvkey rows are appended
back — and the first-merge row count is the number of master rows whose key
found a CRSP match. -/
theorem output_row_count (sm : List MasterRow) (cr : List CrspRow)
    (ms : List ShortRow) (df1 df2 : List Obs)
    (h1 : mergeCrsp sm cr = Except.ok df1)
    (h2 : mergeShort (validGvkey df1) ms = Except.ok df2) :
    pipeline sm cr ms = Except.ok (outputFrame df1 df2) ∧
    (outputFrame df1 df2).length = df1.length ∧
    df1.length = (sm.filter fun m =>
      (cr.find? fun c =>
        c.permno == m.permno && c.time_avail_m == m.time_avail_m).isSome).length := by
  refine ⟨pipeline_eq_ok sm cr ms df1 df2 h1 h2, ?_, ?_⟩
  · have hlen2 : df2.length = (validGvkey df1).length := by
      rw [mergeShort_ok_eq (validGvkey df1) ms df2 h2, List.length_map]
    rw [outputFrame, List.length_append, List.length_map, List.length_map,
      scStage_length, transform_length, hlen2, validGvkey, missingGvkey]
    exact length_filter_partition df1 fun r => r.gvkey == none
  · rw [mergeCrsp_ok_eq sm cr df1 h1, length_filterMap_eq]
    congr 1
    apply List.filter_congr
    intro x _
    simp

/-- C10 (implicit): a master-table row whose key has no match in the CRSP
shares table is silently dropped by the inner join and never reattached: no
final-output row carries its `(permno, time_avail_m)` key, so the output can
have strictly fewer rows than the master table; only the null-gvkey
carve-out is preserved. -/
theorem unmatched_master_dropped (sm : List MasterRow) (cr : List CrspRow)
    (ms : List ShortRow) (df1 df2 : List Obs) (m : MasterRow)
    (h1 : mergeCrsp sm cr = Except.ok df1)
    (h2 : mergeShort (validGvkey df1) ms = Except.ok df2)
    (hnc : ∀ c ∈ cr, ¬(c.permno = m.permno ∧ c.time_avail_m = m.time_avail_m)) :
    pipeline sm cr ms = Except.ok (outputFrame df1 df2) ∧
    ∀ o ∈ outputFrame df1 df2,
      ¬(o.permno = m.permno ∧ o.time_avail_m = m.time_avail_m) := by
  refine ⟨pipeline_eq_ok sm cr ms df1 df2 h1 h2, ?_⟩
  have hdf1 : ∀ r ∈ df1, ¬(r.permno = m.permno ∧ r.time_avail_m = m.time_avail_m) := by
    rintro r hr ⟨hp, ht⟩
    obtain ⟨c, hc, hcp, hct⟩ := mergeCrsp_key sm cr df1 h1 r hr
    exact hnc c hc ⟨hcp.trans hp, hct.trans ht⟩
  rintro o ho ⟨hp, ht⟩
  rw [outputFrame] at ho
  rcases List.mem_append.mp ho with ho | ho
  · obtain ⟨s, hs, rfl⟩ := List.mem_map.mp ho
    obtain ⟨b, hb, hbp, hbt⟩ := scStage_key (transform df2) s hs
    obtain ⟨b2, hb2, hb2p, hb2t⟩ := transform_key df2 b hb
    rw [mergeShort_ok_eq (validGvkey df1) ms df2 h2] at hb2
    obtain ⟨b3, hb3, hb3e⟩ := List.mem_map.mp hb2
    have hb3' : b3 ∈ df1 := List.mem_of_mem_filter hb3
    apply hdf1 b3 hb3'
    have hkey : b3.permno = b2.permno ∧ b3.time_avail_m = b2.time_avail_m := by
      cases hfind : ms.find? fun s =>
          ((some s.gvkey : Option ℤ) == b3.gvkey) && s.time_avail_m == b3.time_avail_m with
      | some s0 => rw [hfind] at hb3e; rw [← hb3e]; exact ⟨rfl, rfl⟩
      | none => rw [hfind] at hb3e; rw [← hb3e]; exact ⟨rfl, rfl⟩
    refine ⟨?_, ?_⟩
    · rw [hkey.1, hb2p, hbp]; exact hp
    · rw [hkey.2, hb2t, hbt]; exact ht
  · obtain ⟨b, hb, rfl⟩ := List.mem_map.mp ho
    have hb' : b ∈ df1 := List.mem_of_mem_filter hb
    exact hdf1 b hb' ⟨hp, ht⟩

/-- C1: for every record of the raw-factor stage, the raw factor is exactly
`-1 × SI_pct_change × cumret_2m`, with
`SI_pct_change = (SI_ratio - SI_ratio_lag2) / SI_ratio_lag2`,
`cumret_2m = (1 + ret_lag1) * (1 + ret_lag2) - 1`,
`SI_ratio = shortint / shrout`, and with the two-month lag applied to the
already-computed ratio: `SI_ratio_lag2` is the `shortint / shrout` ratio of
the same security's record exactly two months earlier, or null when that
record does not exist. -/
theorem raw_factor_formula (df : List Obs) (r : Obs) (hr : r ∈ rawStage df) :
    r.ShortConviction_raw = vMul (vNeg r.SI_pct_change) r.cumret_2m ∧
    r.SI_pct_change = vDiv (vSub r.SI_ratio r.SI_ratio_lag2) r.SI_ratio_lag2 ∧
    r.cumret_2m = vSub (vMul (vAdd (Vp.num 1) r.ret_lag1)
      (vAdd (Vp.num 1) r.ret_lag2)) (Vp.num 1) ∧
    r.SI_ratio = vDiv r.shortint r.shrout ∧
    ((∃ s ∈ df, s.permno = r.permno ∧ s.time_avail_m = r.time_avail_m - 2 ∧
        r.SI_ratio_lag2 = vDiv s.shortint s.shrout) ∨
      ((∀ s ∈ df, ¬(s.permno = r.permno ∧ s.time_avail_m = r.time_avail_m - 2)) ∧
        r.SI_ratio_lag2 = Vp.nan)) :=
  rawStage_spec df r hr

/-- The standardized column of row `i`, in terms of row `i` of the clipped
frame and its month's statistics. -/
lemma scStage_get (df : List Obs) (i : ℕ) (b : Obs) (hb : df[i]? = some b) :
    ((scStage df)[i]?).map SRow.ShortConviction = some (
      if vGt (vStd (monthRaws df b.time_avail_m)) (Vp.num 0) &&
          vNotna b.ShortConviction_raw
      then vDiv (toVR (vSub b.ShortConviction_raw
        (vMean (monthRaws df b.time_avail_m)))) (vStd (monthRaws df b.time_avail_m))
      else Vp.nan) := by
  rw [scStage, addSC, List.getElem?_map _ _ i, addStats, List.getElem?_map _ _ i, hb]
  rfl

/-- Without infinities, the non-null count is the number of finite values. -/
lemma vCount_eq_numVals_length {α : Type} (l : List (Vp α))
    (h : ∀ v ∈ l, v ≠ Vp.pinf ∧ v ≠ Vp.ninf) :
    vCount l = (numVals l).length := by
  induction l with
  | nil => rfl
  | cons a t ih =>
      have ht := ih fun v hv => h v (List.mem_cons_of_mem _ hv)
      have ha := h a (List.mem_cons_self a t)
      cases a with
      | nan => simpa [vCount, numVals, vNotna, vIsNan, List.filter_cons,
          List.filterMap_cons] using ht
      | pinf => exact absurd rfl ha.1
      | ninf => exact absurd rfl ha.2
      | num q => simpa [vCount, numVals, vNotna, vIsNan, List.filter_cons,
          List.filterMap_cons] using ht
  
/-- Without infinities, no cell is positive infinity. -/
lemma any_vIsPinf_false {α : Type} (l : List (Vp α))
    (h : ∀ v ∈ l, v ≠ Vp.pinf ∧ v ≠ Vp.ninf) : l.any vIsPinf = false := by
  rw [List.any_eq_false]
  intro v hv
  have := (h v hv).1
  cases v <;> simp [vIsPinf] <;> exact this rfl

/-- Without infinities, no cell is negative infinity. -/
lemma any_vIsNinf_false {α : Type} (l : List (Vp α))
    (h : ∀ v ∈ l, v ≠ Vp.pinf ∧ v ≠ Vp.ninf) : l.any vIsNinf = false := by
  rw [List.any_eq_false]
  intro v hv
  have := (h v hv).2
  cases v <;> simp [vIsNinf] <;> exact this rfl

/-- Without infinities, the monthly standard deviation is NaN for fewer than
two finite values and otherwise the square root of the sample variance. -/
lemma vStd_eq (l : List V) (h : ∀ v ∈ l, v ≠ Vp.pinf ∧ v ≠ Vp.ninf) :
    vStd l = if (numVals l).length ≤ 1 then Vp.nan
      else Vp.num (Real.sqrt ((sampleVar (numVals l) : ℚ) : ℝ)) := by
  rw [vStd, any_vIsPinf_false l h, any_vIsNinf_false l h,
    vCount_eq_numVals_length l h]
  rfl

/-- Without infinities, the monthly mean is NaN for an empty finite sample
and otherwise the sample mean. -/
lemma vMean_eq (l : List V) (h : ∀ v ∈ l, v ≠ Vp.pinf ∧ v ≠ Vp.ninf) :
    vMean l = if (numVals l).length = 0 then Vp.nan
      else Vp.num (sampleMean (numVals l)) := by
  rw [vMean, any_vIsPinf_false l h, any_vIsNinf_false l h,
    vCount_eq_numVals_length l h]
  rfl

/-- The positivity test on the monthly standard deviation holds exactly for
at least two finite values of positive sample variance. -/
lemma vGt_vStd_iff (l : List V) (h : ∀ v ∈ l, v ≠ Vp.pinf ∧ v ≠ Vp.ninf) :
    vGt (vStd l) (Vp.num 0) = true ↔
      2 ≤ (numVals l).length ∧ 0 < sampleVar (numVals l) := by
  rw [vStd_eq l h]
  split
  next hle =>
    simp only [vGt, Bool.false_eq_true, false_iff]
    rintro ⟨h2, _⟩
    omega
  next hgt =>
    simp only [vGt, decide_eq_true_eq]
    rw [Real.sqrt_pos]
    constructor
    · intro hpos
      exact ⟨by omega, by exact_mod_cast hpos⟩
    · intro hcon
      exact_mod_cast hcon.2

/-- C2: row `i`'s standardized factor is `(raw - mean) / std` — with `mean`
the sample mean and `std` the square root of the sample variance of the
month's non-null raw values — exactly when that sample has at least two
values with positive variance (i.e. the sample standard deviation is
strictly positive) and the row's raw value is non-null; in every other case
it is null. -/
theorem standardization_formula (df : List Obs) (i : ℕ) (b : Obs)
    (hb : df[i]? = some b)
    (hInf : ∀ v ∈ monthRaws df b.time_avail_m, v ≠ Vp.pinf ∧ v ≠ Vp.ninf) :
    ((2 ≤ (cohortVals df b.time_avail_m).length ∧
        0 < sampleVar (cohortVals df b.time_avail_m) ∧
        b.ShortConviction_raw ≠ Vp.nan) →
      ∀ q, b.ShortConviction_raw = Vp.num q →
        ((scStage df)[i]?).map SRow.ShortConviction =
          some (Vp.num (((q : ℝ) -
            ((sampleMean (cohortVals df b.time_avail_m) : ℚ) : ℝ)) /
            Real.sqrt ((sampleVar (cohortVals df b.time_avail_m) : ℚ) : ℝ)))) ∧
    (¬(2 ≤ (cohortVals df b.time_avail_m).length ∧
        0 < sampleVar (cohortVals df b.time_avail_m) ∧
        b.ShortConviction_raw ≠ Vp.nan) →
      ((scStage df)[i]?).map SRow.ShortConviction = some Vp.nan) := by
  have hsc := scStage_get df i b hb
  constructor
  · rintro ⟨hn, hv, -⟩ q hq
    rw [hsc]
    have hgt : vGt (vStd (monthRaws df b.time_avail_m)) (Vp.num 0) = true :=
      (vGt_vStd_iff _ hInf).mpr ⟨hn, hv⟩
    have hmean : vMean (monthRaws df b.time_avail_m) =
        Vp.num (sampleMean (numVals (monthRaws df b.time_avail_m))) := by
      rw [vMean_eq _ hInf]
      have hne : ¬((numVals (monthRaws df b.time_avail_m)).length = 0) := by
        have := hn
        rw [cohortVals] at this
        omega
      simp [hne]
    have hstd : vStd (monthRaws df b.time_avail_m) =
        Vp.num (Real.sqrt ((sampleVar (numVals (monthRaws df b.time_avail_m)) : ℚ) : ℝ)) := by
      rw [vStd_eq _ hInf]
      have hne : ¬((numVals (monthRaws df b.time_avail_m)).length ≤ 1) := by
        have := hn
        rw [cohortVals] at this
        omega
      simp [hne]
    have hσ : Real.sqrt ((sampleVar (numVals (monthRaws df b.time_avail_m)) : ℚ) : ℝ) ≠ 0 := by
      have hvr : (0:ℝ) < ((sampleVar (numVals (monthRaws df b.time_avail_m)) : ℚ) : ℝ) := by
        rw [cohortVals] at hv
        exact_mod_cast hv
      have := Real.sqrt_pos.mpr hvr
      linarith
    rw [hgt, hq, hmean, hstd]
    rw [cohortVals]
    simp only [vNotna, vIsNan, Bool.not_false, Bool.and_self, if_true, vSub,
      vNeg, vAdd, toVR, vDiv, hσ, if_false, Option.some.injEq, Vp.num.injEq]
    push_cast
    ring
  · intro hcon
    rw [hsc]
    by_cases hraw : b.ShortConviction_raw = Vp.nan
    · rw [hraw]
      simp [vNotna, vIsNan]
    · have hnotc : ¬(2 ≤ (numVals (monthRaws df b.time_avail_m)).length ∧
          0 < sampleVar (numVals (monthRaws df b.time_avail_m))) := by
        intro hc
        exact hcon ⟨hc.1, hc.2, hraw⟩
      have hgt : vGt (vStd (monthRaws df b.time_avail_m)) (Vp.num 0) = false := by
        cases hgtc : vGt (vStd (monthRaws df b.time_avail_m)) (Vp.num 0) with
        | false => rfl
        | true => exact absurd ((vGt_vStd_iff _ hInf).mp hgtc) hnotc
      rw [hgt]
      simp

/-- Unpacking the well-formedness of a merged row: finite-or-missing
returns and short interest, positive-or-missing shares outstanding. -/
lemma wellFormed_spec (df : List Obs) (hwf : wellFormed df = true) (b : Obs)
    (hb : b ∈ df) :
    (b.ret = Vp.nan ∨ ∃ q, b.ret = Vp.num q) ∧
    (b.shortint = Vp.nan ∨ ∃ q, b.shortint = Vp.num q) ∧
    (b.shrout = Vp.nan ∨ ∃ q, b.shrout = Vp.num q ∧ 0 < q) := by
  rw [wellFormed, List.all_eq_true] at hwf
  have h := hwf b hb
  simp only [Bool.and_eq_true, Bool.not_eq_true'] at h
  obtain ⟨⟨⟨hr1, hr2⟩, hs1, hs2⟩, ho⟩ := h
  refine ⟨?_, ?_, ?_⟩
  · cases hc : b.ret with
    | nan => exact Or.inl rfl
    | num q => exact Or.inr ⟨q, rfl⟩
    | pinf => rw [hc] at hr1; simp [vIsPinf] at hr1
    | ninf => rw [hc] at hr2; simp [vIsNinf] at hr2
  · cases hc : b.shortint with
    | nan => exact Or.inl rfl
    | num q => exact Or.inr ⟨q, rfl⟩
    | pinf => rw [hc] at hs1; simp [vIsPinf] at hs1
    | ninf => rw [hc] at hs2; simp [vIsNinf] at hs2
  · cases hc : b.shrout with
    | nan => exact Or.inl rfl
    | num q =>
        rw [hc] at ho
        exact Or.inr ⟨q, rfl, of_decide_eq_true ho⟩
    | pinf => rw [hc] at ho; exact absurd ho (by simp)
    | ninf => rw [hc] at ho; exact absurd ho (by simp)

/-- Dividing a finite-or-missing value by a positive-or-missing value can
only yield a finite number or NaN — never an infinity. -/
lemma vDiv_wf (x y : V) (hx : x = Vp.nan ∨ ∃ q, x = Vp.num q)
    (hy : y = Vp.nan ∨ ∃ q, y = Vp.num q ∧ 0 < q) :
    vDiv x y = Vp.nan ∨ ∃ q, vDiv x y = Vp.num q := by
  rcases hx with rfl | ⟨a, rfl⟩
  · left; exact vDiv_nan_left _
  rcases hy with rfl | ⟨b, rfl, hb⟩
  · left; exact vDiv_nan_right _
  · right
    refine ⟨a / b, ?_⟩
    simp [vDiv, hb.ne']

/-- Under a well-formed input frame, the lag columns and ratio columns of a
raw-stage row are finite or missing — never an infinity (shares outstanding
are positive, so no ratio divides by zero). -/
lemma rawStage_wf (df : List Obs) (hwf : wellFormed df = true) (r : Obs)
    (hr : r ∈ rawStage df) :
    (r.ret_lag1 = Vp.nan ∨ ∃ q, r.ret_lag1 = Vp.num q) ∧
    (r.ret_lag2 = Vp.nan ∨ ∃ q, r.ret_lag2 = Vp.num q) ∧
    (r.SI_ratio = Vp.nan ∨ ∃ q, r.SI_ratio = Vp.num q) ∧
    (r.SI_ratio_lag2 = Vp.nan ∨ ∃ q, r.SI_ratio_lag2 = Vp.num q) := by
  rw [rawStage, addRaw] at hr
  obtain ⟨u, hu, rfl⟩ := List.mem_map.mp hr
  rw [addSIPct] at hu
  obtain ⟨w, hw, rfl⟩ := List.mem_map.mp hu
  rw [addCumret] at hw
  obtain ⟨x, hx, rfl⟩ := List.mem_map.mp hw
  rw [laggedStage, addSIRatioLag2] at hx
  obtain ⟨y, hy, rfl⟩ := List.mem_map.mp hx
  rw [addRetLags] at hy
  obtain ⟨z, hz, rfl⟩ := List.mem_map.mp hy
  rw [sortPanel] at hz
  have hz' := (List.mem_insertionSort _).mp hz
  rw [addSIRatio] at hz'
  obtain ⟨b0, hb0, rfl⟩ := List.mem_map.mp hz'
  have hret : ∀ (n : ℤ),
      lagOf (sortPanel (addSIRatio df)) b0.permno b0.time_avail_m n
          (fun s => s.ret) = Vp.nan ∨
        ∃ q, lagOf (sortPanel (addSIRatio df)) b0.permno b0.time_avail_m n
          (fun s => s.ret) = Vp.num q := by
    intro n
    rw [lagOf]
    cases hfind : (sortPanel (addSIRatio df)).find? fun s =>
        s.permno == b0.permno && s.time_avail_m == b0.time_avail_m - n with
    | none => exact Or.inl rfl
    | some s =>
        have hs := List.mem_of_find?_eq_some hfind
        rw [sortPanel] at hs
        have hs' := (List.mem_insertionSort _).mp hs
        rw [addSIRatio] at hs'
        obtain ⟨b1, hb1, rfl⟩ := List.mem_map.mp hs'
        exact (wellFormed_spec df hwf b1 hb1).1
  refine ⟨hret 1, hret 2, ?_, ?_⟩
  · exact vDiv_wf b0.shortint b0.shrout (wellFormed_spec df hwf b0 hb0).2.1
      (wellFormed_spec df hwf b0 hb0).2.2
  · show lagOf _ _ _ 2 (fun s => s.SI_ratio) = Vp.nan ∨
      ∃ q, lagOf _ _ _ 2 (fun s => s.SI_ratio) = Vp.num q
    rw [lagOf]
    cases hfind : (addRetLags (sortPanel (addSIRatio df))).find? fun s =>
        s.permno == b0.permno && s.time_avail_m == b0.time_avail_m - 2 with
    | none => exact Or.inl rfl
    | some s =>
        have hs := List.mem_of_find?_eq_some hfind
        rw [addRetLags] at hs
        obtain ⟨s1, hs1, rfl⟩ := List.mem_map.mp hs
        rw [sortPanel] at hs1
        have hs1' := (List.mem_insertionSort _).mp hs1
        rw [addSIRatio] at hs1'
        obtain ⟨b2, hb2, rfl⟩ := List.mem_map.mp hs1'
        exact vDiv_wf b2.shortint b2.shrout (wellFormed_spec df hwf b2 hb2).2.1
          (wellFormed_spec df hwf b2 hb2).2.2

/-- NaN passes clipping unchanged, and clipping never produces NaN from a
non-null value. -/
lemma vClip_nan_iff (v : V) : vClip (-3 : ℚ) 3 v = Vp.nan ↔ v = Vp.nan := by
  cases v <;> simp [vClip]

/-- Clipping a non-null value yields a finite number. -/
lemma vClip_not_nan (v : V) (h : v ≠ Vp.nan) :
    ∃ q, vClip (-3 : ℚ) 3 v = Vp.num q := by
  cases v with
  | nan => exact absurd rfl h
  | pinf => exact ⟨3, rfl⟩
  | ninf => exact ⟨-3, rfl⟩
  | num q => exact ⟨max (-3) (min q 3), rfl⟩

/-- Classification of the nullity of the raw factor
`-(a - c)/c * ((1 + l1)(1 + l2) - 1)` when every operand is finite or
missing: it is null exactly when an operand is missing, the percentage
change is `0/0`, or an infinite percentage change meets a zero cumulative
return. -/
lemma raw_nan_iff (a c l1 l2 : V)
    (ha : a = Vp.nan ∨ ∃ q, a = Vp.num q) (hc : c = Vp.nan ∨ ∃ q, c = Vp.num q)
    (h1 : l1 = Vp.nan ∨ ∃ q, l1 = Vp.num q)
    (h2 : l2 = Vp.nan ∨ ∃ q, l2 = Vp.num q) :
    (vMul (vNeg (vDiv (vSub a c) c))
        (vSub (vMul (vAdd (Vp.num 1) l1) (vAdd (Vp.num 1) l2)) (Vp.num 1)) = Vp.nan ↔
      (vIsNan l1 = true ∨ vIsNan l2 = true ∨ vIsNan a = true ∨ vIsNan c = true ∨
        (a = Vp.num 0 ∧ c = Vp.num 0) ∨
        (c = Vp.num 0 ∧ a ≠ Vp.num 0 ∧
          vSub (vMul (vAdd (Vp.num 1) l1) (vAdd (Vp.num 1) l2)) (Vp.num 1) = Vp.num 0))) := by
  rcases ha with rfl | ⟨qa, rfl⟩
  · simp [vSub_nan_left, vDiv_nan_left, vMul_nan_left, vIsNan, vNeg]
  rcases hc with rfl | ⟨qc, rfl⟩
  · have hs : vSub (Vp.num qa) (Vp.nan : V) = Vp.nan := rfl
    simp [hs, vDiv_nan_right, vMul_nan_left, vIsNan, vNeg]
  rcases h1 with rfl | ⟨q1, rfl⟩
  · have hadd : vAdd (Vp.num (1:ℚ)) Vp.nan = Vp.nan := rfl
    have hcum : vSub (vMul (vAdd (Vp.num (1:ℚ)) Vp.nan) (vAdd (Vp.num 1) l2))
        (Vp.num 1) = Vp.nan := by
      rw [hadd, vMul_nan_left, vSub_nan_left]
    rw [hcum, vMul_nan_right]
    simp [vIsNan]
  rcases h2 with rfl | ⟨q2, rfl⟩
  · have hadd : vAdd (Vp.num (1:ℚ)) Vp.nan = Vp.nan := rfl
    have hcum : vSub (vMul (vAdd (Vp.num (1:ℚ)) (Vp.num q1)) (vAdd (Vp.num 1) Vp.nan))
        (Vp.num 1) = Vp.nan := by
      rw [hadd, vMul_nan_right, vSub_nan_left]
    rw [hcum, vMul_nan_right]
    simp [vIsNan]
  · have hcum : vSub (vMul (vAdd (Vp.num (1:ℚ)) (Vp.num q1)) (vAdd (Vp.num 1) (Vp.num q2)))
        (Vp.num 1) = Vp.num ((1 + q1) * (1 + q2) + -1) := rfl
    rw [hcum]
    have hsub : vSub (Vp.num qa) (Vp.num qc) = Vp.num (qa + -qc) := rfl
    rw [hsub]
    by_cases hqc : qc = 0
    · subst hqc
      by_cases hqa : qa = 0
      · subst hqa
        have hdiv : vDiv (Vp.num ((0:ℚ) + -0)) (Vp.num 0) = Vp.nan := by
          norm_num [vDiv]
        rw [hdiv]
        have : vMul (vNeg (Vp.nan : V)) (Vp.num ((1 + q1) * (1 + q2) + -1)) = Vp.nan := rfl
        rw [show vNeg (Vp.nan : V) = Vp.nan from rfl, vMul_nan_left]
        simp [vIsNan]
      · have hz : qa + -(0:ℚ) = qa := by ring
        rw [hz]
        rcases lt_trichotomy 0 qa with hpos | hzero | hneg
        · have hdiv : vDiv (Vp.num qa) (Vp.num (0:ℚ)) = Vp.pinf := by
            simp [vDiv, hqa, hpos]
          rw [hdiv]
          show vMul Vp.ninf (Vp.num ((1 + q1) * (1 + q2) + -1)) = Vp.nan ↔ _
          rcases lt_trichotomy 0 ((1 + q1) * (1 + q2) + -1) with hcz | hcz | hcz
          · simp [vMul, hcz, vIsNan, hqa]
            intro h
            rw [h] at hcz
            exact absurd hcz (by norm_num)
          · simp [vMul, ← hcz, vIsNan, hqa]
          · simp [vMul, hcz, not_lt.mpr hcz.le, vIsNan, hqa]
            intro h
            rw [h] at hcz
            exact absurd hcz (by norm_num)
        · exact absurd hzero.symm hqa
        · have hdiv : vDiv (Vp.num qa) (Vp.num (0:ℚ)) = Vp.ninf := by
            simp [vDiv, hqa, not_lt.mpr hneg.le, hneg]
          rw [hdiv]
          show vMul Vp.pinf (Vp.num ((1 + q1) * (1 + q2) + -1)) = Vp.nan ↔ _
          rcases lt_trichotomy 0 ((1 + q1) * (1 + q2) + -1) with hcz | hcz | hcz
          · simp [vMul, hcz, vIsNan, hqa]
            intro h
            rw [h] at hcz
            exact absurd hcz (by norm_num)
          · simp [vMul, ← hcz, vIsNan, hqa]
          · simp [vMul, hcz, not_lt.mpr hcz.le, vIsNan, hqa]
            intro h
            rw [h] at hcz
            exact absurd hcz (by norm_num)
    · have hdiv : vDiv (Vp.num (qa + -qc)) (Vp.num qc) = Vp.num ((qa + -qc) / qc) := by
        simp [vDiv, hqc]
      rw [hdiv]
      show vMul (Vp.num (-((qa + -qc) / qc))) (Vp.num ((1 + q1) * (1 + q2) + -1)) = Vp.nan ↔ _
      simp [vMul, vIsNan, hqc]

/-- After clipping, a month's raw column contains no infinities. -/
lemma monthRaws_transform_noInf (df : List Obs) (t : ℤ) :
    ∀ v ∈ monthRaws (transform df) t, v ≠ Vp.pinf ∧ v ≠ Vp.ninf := by
  intro v hv
  rw [monthRaws] at hv
  obtain ⟨r, hr, rfl⟩ := List.mem_map.mp hv
  have hr' : r ∈ transform df := List.mem_of_mem_filter hr
  rw [transform, addClip] at hr'
  obtain ⟨u, -, rfl⟩ := List.mem_map.mp hr'
  show vClip (-3) 3 u.ShortConviction_raw ≠ _ ∧ vClip (-3) 3 u.ShortConviction_raw ≠ _
  cases u.ShortConviction_raw <;> simp [vClip]

/-- C3 (amended): a record's standardized factor is null exactly when one of
these holds: a return lag is unavailable, the current or the twice-lagged
short-interest ratio is null, both ratios are zero (a `0/0` percentage
change), the twice-lagged ratio is zero while the current ratio is not and
the cumulative return is zero (an infinite percentage change multiplied by
zero), or the month-cohort standard deviation is zero or undefined.  In
particular a zero lagged ratio with a nonzero current ratio and a nonzero
cumulative return gives an infinite raw factor, clipped to `±3` — not a
null.  (Null-gvkey rows never reach this stage; they are emitted with a null
factor, see the carve-out theorem.) -/
theorem standardized_nullity_characterization (df : List Obs)
    (hwf : wellFormed df = true) (i : ℕ) (b : Obs)
    (hb : (transform df)[i]? = some b) :
    (((scStage (transform df))[i]?).map SRow.ShortConviction = some Vp.nan ↔
      (vIsNan b.ret_lag1 = true ∨ vIsNan b.ret_lag2 = true ∨
        vIsNan b.SI_ratio = true ∨ vIsNan b.SI_ratio_lag2 = true ∨
        (b.SI_ratio = Vp.num 0 ∧ b.SI_ratio_lag2 = Vp.num 0) ∨
        (b.SI_ratio_lag2 = Vp.num 0 ∧ b.SI_ratio ≠ Vp.num 0 ∧
          b.cumret_2m = Vp.num 0) ∨
        vGt (vStd (monthRaws (transform df) b.time_avail_m)) (Vp.num 0) = false)) := by
  have hsc := scStage_get (transform df) i b hb
  cases hrb : (rawStage df)[i]? with
  | none =>
      have hnone : (transform df)[i]? = none := by
        rw [transform, addClip, List.getElem?_map _ _ i, hrb]
        rfl
      rw [hnone] at hb
      exact absurd hb (by simp)
  | some rb =>
      have hbe : b = { rb with
          ShortConviction_raw := vClip (-3) 3 rb.ShortConviction_raw } := by
        have h' : (transform df)[i]? = some { rb with
            ShortConviction_raw := vClip (-3) 3 rb.ShortConviction_raw } := by
          rw [transform, addClip, List.getElem?_map _ _ i, hrb]
          rfl
        rw [h'] at hb
        exact (Option.some.inj hb).symm
      have hrbm : rb ∈ rawStage df := List.getElem?_mem hrb
      obtain ⟨hraw, hpct, hcum, -, -⟩ := rawStage_spec df rb hrbm
      obtain ⟨hw1, hw2, hwa, hwc⟩ := rawStage_wf df hwf rb hrbm
      have hNI := monthRaws_transform_noInf df b.time_avail_m
      have hrawiff := raw_nan_iff rb.SI_ratio rb.SI_ratio_lag2 rb.ret_lag1
        rb.ret_lag2 hwa hwc hw1 hw2
      rw [← hpct, ← hcum, ← hraw] at hrawiff
      rw [hsc]
      have hfields : b.SI_ratio = rb.SI_ratio ∧ b.SI_ratio_lag2 = rb.SI_ratio_lag2 ∧
          b.ret_lag1 = rb.ret_lag1 ∧ b.ret_lag2 = rb.ret_lag2 ∧
          b.cumret_2m = rb.cumret_2m ∧
          b.ShortConviction_raw = vClip (-3) 3 rb.ShortConviction_raw := by
        rw [hbe]
        exact ⟨rfl, rfl, rfl, rfl, rfl, rfl⟩
      obtain ⟨hf1, hf2, hf3, hf4, hf5, hf6⟩ := hfields
      rw [hf1, hf2, hf3, hf4, hf5, hf6]
      by_cases hS : vGt (vStd (monthRaws (transform df) b.time_avail_m))
          (Vp.num 0) = true
      · rw [hS]
        by_cases hrnan : rb.ShortConviction_raw = Vp.nan
        · rw [hrnan]
          have hcl : vClip (-3 : ℚ) 3 Vp.nan = Vp.nan := rfl
          rw [hcl]
          simp only [vNotna, vIsNan, Bool.not_true, Bool.and_false,
            Bool.false_eq_true, if_false, Option.some.injEq, true_iff]
          have hd := hrawiff.mp hrnan
          rcases hd with hd | hd | hd | hd | hd | hd
          · exact Or.inl hd
          · exact Or.inr (Or.inl hd)
          · exact Or.inr (Or.inr (Or.inl hd))
          · exact Or.inr (Or.inr (Or.inr (Or.inl hd)))
          · exact Or.inr (Or.inr (Or.inr (Or.inr (Or.inl hd))))
          · exact Or.inr (Or.inr (Or.inr (Or.inr (Or.inr (Or.inl hd)))))
        · obtain ⟨q', hq'⟩ := vClip_not_nan rb.ShortConviction_raw hrnan
          rw [hq']
          have hn2 : 2 ≤ (numVals (monthRaws (transform df) b.time_avail_m)).length ∧
              0 < sampleVar (numVals (monthRaws (transform df) b.time_avail_m)) :=
            (vGt_vStd_iff _ hNI).mp hS
          have hmean : vMean (monthRaws (transform df) b.time_avail_m) =
              Vp.num (sampleMean (numVals (monthRaws (transform df) b.time_avail_m))) := by
            rw [vMean_eq _ hNI]
            have : ¬((numVals (monthRaws (transform df) b.time_avail_m)).length = 0) := by
              omega
            simp [this]
          have hstd : vStd (monthRaws (transform df) b.time_avail_m) =
              Vp.num (Real.sqrt ((sampleVar (numVals (monthRaws (transform df)
                b.time_avail_m)) : ℚ) : ℝ)) := by
            rw [vStd_eq _ hNI]
            have : ¬((numVals (monthRaws (transform df) b.time_avail_m)).length ≤ 1) := by
              omega
            simp [this]
          have hσ : Real.sqrt ((sampleVar (numVals (monthRaws (transform df)
              b.time_avail_m)) : ℚ) : ℝ) ≠ 0 := by
            have hvr : (0:ℝ) < ((sampleVar (numVals (monthRaws (transform df)
                b.time_avail_m)) : ℚ) : ℝ) := by
              exact_mod_cast hn2.2
            have := Real.sqrt_pos.mpr hvr
            linarith
          rw [hmean, hstd]
          have hval : vDiv (toVR (vSub (Vp.num q')
              (Vp.num (sampleMean (numVals (monthRaws (transform df) b.time_avail_m))))))
              (Vp.num (Real.sqrt ((sampleVar (numVals (monthRaws (transform df)
                b.time_avail_m)) : ℚ) : ℝ))) =
              Vp.num (((q' + -(sampleMean (numVals (monthRaws (transform df)
                b.time_avail_m))) : ℚ) : ℝ) /
                Real.sqrt ((sampleVar (numVals (monthRaws (transform df)
                b.time_avail_m)) : ℚ) : ℝ)) := by
            show vDiv (Vp.num _) (Vp.num _) = _
            simp [vDiv, hσ]
          simp only [vNotna, vIsNan, Bool.not_false, Bool.and_self, if_true, hval,
            Option.some.injEq]
          constructor
          · intro hfalse
            exact absurd hfalse (by simp)
          · intro hd
            have hdis : rb.ShortConviction_raw = Vp.nan := by
              rcases hd with hd | hd | hd | hd | hd | hd | hd
              · exact hrawiff.mpr (Or.inl hd)
              · exact hrawiff.mpr (Or.inr (Or.inl hd))
              · exact hrawiff.mpr (Or.inr (Or.inr (Or.inl hd)))
              · exact hrawiff.mpr (Or.inr (Or.inr (Or.inr (Or.inl hd))))
              · exact hrawiff.mpr (Or.inr (Or.inr (Or.inr (Or.inr (Or.inl hd)))))
              · exact hrawiff.mpr (Or.inr (Or.inr (Or.inr (Or.inr (Or.inr hd)))))
              · simp at hd
            exact absurd hdis hrnan
      · have hSf : vGt (vStd (monthRaws (transform df) b.time_avail_m))
            (Vp.num 0) = false := Bool.eq_false_iff.mpr hS
        rw [hSf]
        simp only [Bool.false_and, Bool.false_eq_true, if_false,
          Option.some.injEq, true_iff]
        exact Or.inr (Or.inr (Or.inr (Or.inr (Or.inr (Or.inr trivial)))))

/-- Casting a sample mean from `ℚ` to `ℝ` commutes with the cast of the
sample. -/
lemma sampleMean_cast (l : List ℚ) :
    ((sampleMean l : ℚ) : ℝ) = sampleMean (l.map fun (q : ℚ) => (q : ℝ)) := by
  have hs : ((l.sum : ℚ) : ℝ) = (l.map fun (q : ℚ) => (q : ℝ)).sum := by
    simpa using map_list_sum (Rat.castHom ℝ) l
  rw [sampleMean, sampleMean, List.length_map, Rat.cast_div, hs]
  norm_cast

/-- Summing the standardization map: the sum of `(q - m)/s` over a rational
sample. -/
lemma sum_map_stdz (ys : List ℚ) (m s : ℝ) :
    (ys.map fun (q : ℚ) => ((q : ℝ) - m)/s).sum =
      (((ys.sum : ℚ) : ℝ) - ys.length * m)/s := by
  induction ys with
  | nil => simp
  | cons q tl ih =>
      rw [List.map_cons, List.sum_cons, ih, List.sum_cons, List.length_cons]
      push_cast
      ring

/-- Summing the squared standardization map. -/
lemma sum_map_stdz_sq (ys : List ℚ) (mq : ℚ) (s : ℝ) :
    (ys.map fun (q : ℚ) => (((q : ℝ) - ((mq : ℚ) : ℝ))/s)^2).sum =
      (((ys.map fun (q : ℚ) => (q - mq)^2).sum : ℚ) : ℝ) / s^2 := by
  induction ys with
  | nil => simp
  | cons q tl ih =>
      rw [List.map_cons, List.sum_cons, ih, List.map_cons, List.sum_cons]
      push_cast
      ring

/-- Shape of the non-null standardized values of month `t`: if the
standardizer acts as `f` on every finite raw value of the month (and the
month has no infinite raws), the month's non-null standardized column is the
image under `f` of the month's non-null raw column. -/
lemma scMonth_shape (l : List Obs) (t : ℤ) (G : Obs → SRow) (f : ℚ → ℝ)
    (hGt : ∀ b, (G b).time_avail_m = b.time_avail_m)
    (hGsc : ∀ b, b.time_avail_m = t → b.ShortConviction_raw ≠ Vp.pinf →
      b.ShortConviction_raw ≠ Vp.ninf →
      (G b).ShortConviction = (match b.ShortConviction_raw with
        | Vp.num q => Vp.num (f q)
        | _ => Vp.nan))
    (hNI : ∀ b ∈ l, b.time_avail_m = t →
      b.ShortConviction_raw ≠ Vp.pinf ∧ b.ShortConviction_raw ≠ Vp.ninf) :
    numVals (((l.map G).filter fun r => r.time_avail_m == t).map
        fun r => r.ShortConviction) =
      (numVals ((l.filter fun b => b.time_avail_m == t).map
        fun b => b.ShortConviction_raw)).map f := by
  induction l with
  | nil => rfl
  | cons b tl ih =>
      have ih' := ih fun x hx hxt => hNI x (List.mem_cons_of_mem _ hx) hxt
      by_cases hbt : b.time_avail_m = t
      · have h1 : ((G b).time_avail_m == t) = true := by
          rw [hGt, hbt]
          simp
        have h2 : (b.time_avail_m == t) = true := by
          rw [hbt]
          simp
        have hni := hNI b (List.mem_cons_self b tl) hbt
        rw [List.map_cons, List.filter_cons, h1, List.filter_cons, h2]
        simp only [if_true]
        rw [List.map_cons, List.map_cons]
        rw [hGsc b hbt hni.1 hni.2]
        cases hbr : b.ShortConviction_raw with
        | nan => simpa [numVals, List.filterMap_cons] using ih'
        | pinf => exact absurd hbr hni.1
        | ninf => exact absurd hbr hni.2
        | num q => simpa [numVals, List.filterMap_cons] using ih'
      · have h1 : ((G b).time_avail_m == t) = false := by
          rw [hGt]
          simpa using hbt
        have h2 : (b.time_avail_m == t) = false := by
          simpa using hbt
        rw [List.map_cons, List.filter_cons, h1, List.filter_cons, h2]
        simpa using ih'

/-- When a month has at least two non-null raw values with positive sample
variance, its non-null standardized column is the pointwise standardization
of its non-null raw column. -/
lemma scMonthVals_eq (df : List Obs) (t : ℤ)
    (hInf : ∀ v ∈ monthRaws df t, v ≠ Vp.pinf ∧ v ≠ Vp.ninf)
    (hn : 2 ≤ (cohortVals df t).length) (hv : 0 < sampleVar (cohortVals df t)) :
    scMonthVals df t = (cohortVals df t).map fun (q : ℚ) =>
      ((q : ℝ) - ((sampleMean (cohortVals df t) : ℚ) : ℝ)) /
        Real.sqrt ((sampleVar (cohortVals df t) : ℚ) : ℝ) := by
  have hn' : 2 ≤ (numVals (monthRaws df t)).length := hn
  have hv' : 0 < sampleVar (numVals (monthRaws df t)) := hv
  have hgt : vGt (vStd (monthRaws df t)) (Vp.num 0) = true :=
    (vGt_vStd_iff _ hInf).mpr ⟨hn', hv'⟩
  have hmean : vMean (monthRaws df t) =
      Vp.num (sampleMean (numVals (monthRaws df t))) := by
    rw [vMean_eq _ hInf]
    have hne : ¬((numVals (monthRaws df t)).length = 0) := by omega
    simp [hne]
  have hstd : vStd (monthRaws df t) =
      Vp.num (Real.sqrt ((sampleVar (numVals (monthRaws df t)) : ℚ) : ℝ)) := by
    rw [vStd_eq _ hInf]
    have hne : ¬((numVals (monthRaws df t)).length ≤ 1) := by omega
    simp [hne]
  have hσ : Real.sqrt ((sampleVar (numVals (monthRaws df t)) : ℚ) : ℝ) ≠ 0 := by
    have hvr : (0:ℝ) < ((sampleVar (numVals (monthRaws df t)) : ℚ) : ℝ) := by
      exact_mod_cast hv'
    have := Real.sqrt_pos.mpr hvr
    linarith
  rw [scMonthVals, scStage, addSC, addStats, List.map_map, cohortVals]
  refine scMonth_shape df t _ _ (fun b => rfl) ?_ ?_
  · intro b hbt hp hn2
    show (if (vGt (vStd (monthRaws df b.time_avail_m)) (Vp.num 0) &&
        vNotna b.ShortConviction_raw) = true then
        vDiv (toVR (vSub b.ShortConviction_raw (vMean (monthRaws df b.time_avail_m))))
          (vStd (monthRaws df b.time_avail_m))
      else Vp.nan) = _
    rw [hbt]
    cases hbr : b.ShortConviction_raw with
    | nan => simp [vNotna, vIsNan]
    | pinf => exact absurd hbr hp
    | ninf => exact absurd hbr hn2
    | num q =>
        rw [hgt, hmean, hstd]
        simp only [vNotna, vIsNan, Bool.not_false, Bool.and_self, if_true]
        show vDiv (Vp.num _) (Vp.num _) = _
        simp only [vDiv, hσ, if_false, Vp.num.injEq]
        push_cast
        ring
  · intro b hb hbt
    apply hInf
    rw [monthRaws]
    exact List.mem_map_of_mem _ (List.mem_filter.mpr ⟨hb, by simp [hbt]⟩)

/-- C9: in every month with more than one non-null raw value and strictly
positive cohort standard deviation, the non-null standardized values have
exactly as many entries as the raw sample, sample mean 0, and sample
standard deviation exactly 1. -/
theorem standardized_month_mean_zero_std_one (df : List Obs) (t : ℤ)
    (hInf : ∀ v ∈ monthRaws df t, v ≠ Vp.pinf ∧ v ≠ Vp.ninf)
    (hn : 2 ≤ (cohortVals df t).length)
    (hv : 0 < sampleVar (cohortVals df t)) :
    (scMonthVals df t).length = (cohortVals df t).length ∧
    sampleMean (scMonthVals df t) = 0 ∧
    Real.sqrt (sampleVar (scMonthVals df t)) = 1 := by
  rw [scMonthVals_eq df t hInf hn hv]
  have hvr : (0:ℝ) < ((sampleVar (cohortVals df t) : ℚ) : ℝ) := by exact_mod_cast hv
  have hσpos : 0 < Real.sqrt ((sampleVar (cohortVals df t) : ℚ) : ℝ) :=
    Real.sqrt_pos.mpr hvr
  have hσsq : Real.sqrt ((sampleVar (cohortVals df t) : ℚ) : ℝ) ^ 2 =
      ((sampleVar (cohortVals df t) : ℚ) : ℝ) := Real.sq_sqrt hvr.le
  have hlen : (cohortVals df t).length ≠ 0 := by omega
  have hlenR : ((cohortVals df t).length : ℝ) ≠ 0 := by exact_mod_cast hlen
  have hlen1R : ((cohortVals df t).length : ℝ) - 1 ≠ 0 := by
    have h2 : (2:ℝ) ≤ ((cohortVals df t).length : ℝ) := by exact_mod_cast hn
    linarith
  have hmean0 : sampleMean ((cohortVals df t).map fun (q : ℚ) =>
      ((q : ℝ) - ((sampleMean (cohortVals df t) : ℚ) : ℝ)) /
        Real.sqrt ((sampleVar (cohortVals df t) : ℚ) : ℝ)) = 0 := by
    rw [sampleMean, sum_map_stdz, List.length_map]
    rw [sampleMean, Rat.cast_div]
    push_cast
    field_simp
  refine ⟨List.length_map _ _, hmean0, ?_⟩
  rw [sampleVar, hmean0]
  simp only [sub_zero, List.map_map]
  have hcomp : ((fun x => x ^ 2) ∘ fun (q : ℚ) =>
      ((q : ℝ) - ((sampleMean (cohortVals df t) : ℚ) : ℝ)) /
        Real.sqrt ((sampleVar (cohortVals df t) : ℚ) : ℝ)) = fun (q : ℚ) =>
      (((q : ℝ) - ((sampleMean (cohortVals df t) : ℚ) : ℝ)) /
        Real.sqrt ((sampleVar (cohortVals df t) : ℚ) : ℝ)) ^ 2 := rfl
  rw [hcomp, sum_map_stdz_sq, List.length_map]
  have hsumsq : ((cohortVals df t).map fun (q : ℚ) =>
      (q - sampleMean (cohortVals df t))^2).sum =
      sampleVar (cohortVals df t) * (((cohortVals df t).length : ℚ) - 1) := by
    rw [sampleVar]
    have hlen1Q : (((cohortVals df t).length : ℚ) - 1) ≠ 0 := by
      have h2 : (2:ℚ) ≤ ((cohortVals df t).length : ℚ) := by exact_mod_cast hn
      linarith
    field_simp
  rw [hsumsq, hσsq]
  rw [show (((sampleVar (cohortVals df t) * (((cohortVals df t).length : ℚ) - 1) : ℚ)) : ℝ) =
    ((sampleVar (cohortVals df t) : ℚ) : ℝ) * (((cohortVals df t).length : ℝ) - 1) by push_cast; ring]
  rw [show ((sampleVar (cohortVals df t) : ℚ) : ℝ) * (((cohortVals df t).length : ℝ) - 1) /
      ((sampleVar (cohortVals df t) : ℚ) : ℝ) / (((cohortVals df t).length : ℝ) - 1) = 1 by
    field_simp]
  exact Real.sqrt_one

section ConcreteInstances

attribute [local semireducible] Rat.add Rat.sub Rat.mul Rat.inv

/-- On the concrete instance, month 2's cohort standard deviation is
positive: the non-null clipped raws are `[-3, 0, -1]`, variance `7/3`. -/
lemma month2_std_pos : vGt (vStd (monthRaws tX 2)) (Vp.num 0) = true := by
  have hInfL : ∀ v ∈ monthRaws tX 2, v ≠ Vp.pinf ∧ v ≠ Vp.ninf := by decide
  exact (vGt_vStd_iff _ hInfL).mpr ⟨by decide, by decide⟩

/-- The concrete month-2 standard deviation is `√(7/3)`. -/
lemma month2_std_val :
    vStd (monthRaws tX 2) = Vp.num (Real.sqrt (((7:ℚ)/3 : ℚ) : ℝ)) := by
  have hInfL : ∀ v ∈ monthRaws tX 2, v ≠ Vp.pinf ∧ v ≠ Vp.ninf := by decide
  rw [vStd_eq _ hInfL]
  have h1 : ¬((numVals (monthRaws tX 2)).length ≤ 1) := by decide
  rw [if_neg h1]
  have h2 : sampleVar (numVals (monthRaws tX 2)) = (7:ℚ)/3 := by decide
  rw [h2]

/-- The concrete month-2 mean is `-4/3`. -/
lemma month2_mean_val : vMean (monthRaws tX 2) = Vp.num (-(4:ℚ)/3) := by decide

/-- C4 counterexample: on the concrete instance, security 1 at month 2 has a
zero twice-lagged ratio and a nonzero current ratio; its `SI_pct_change` is
`+∞` — not null — its clipped raw factor is `-3` — not null — and its
standardized factor is a finite number, not null.  So a division by zero
does *not* yield null for that record, contradicting the claim. -/
theorem division_by_zero_null_cex :
    (tX[2]?).map (fun r => (r.SI_ratio, r.SI_ratio_lag2, r.SI_pct_change,
      r.ShortConviction_raw)) =
      some ((Vp.num 1 : V), (Vp.num 0 : V), (Vp.pinf : V), (Vp.num (-3) : V)) ∧
    ∃ z : ℝ, ((scStage tX)[2]?).map SRow.ShortConviction = some (Vp.num z) := by
  constructor
  · decide
  · refine ⟨((-(5:ℚ)/3 : ℚ) : ℝ) / Real.sqrt (((7:ℚ)/3 : ℚ) : ℝ), ?_⟩
    have hb : tX[2]? = some
        { permno := 1, gvkey := some 1, time_avail_m := 2, ret := Vp.num 0,
          shrout := Vp.num 1, shortint := Vp.num 1, SI_ratio := Vp.num 1,
          ret_lag1 := Vp.num 1, ret_lag2 := Vp.num 0,
          SI_ratio_lag2 := Vp.num 0, cumret_2m := Vp.num 1,
          SI_pct_change := Vp.pinf, ShortConviction_raw := Vp.num (-3) } := by
      decide
    have hsc := scStage_get tX 2 _ hb
    dsimp only at hsc
    rw [month2_std_pos, month2_mean_val, month2_std_val] at hsc
    have hs : vSub (Vp.num (-3 : ℚ)) (Vp.num (-(4:ℚ)/3)) = Vp.num (-(5:ℚ)/3) := by
      decide
    rw [hs] at hsc
    have hσ : Real.sqrt (((7:ℚ)/3 : ℚ) : ℝ) ≠ 0 := by
      have : (0:ℝ) < (((7:ℚ)/3 : ℚ) : ℝ) := by
        push_cast
        norm_num
      have := Real.sqrt_pos.mpr this
      linarith
    rw [show toVR (Vp.num (-(5:ℚ)/3)) = Vp.num ((-(5:ℚ)/3 : ℚ) : ℝ) from rfl] at hsc
    rw [show vDiv (Vp.num ((-(5:ℚ)/3 : ℚ) : ℝ))
        (Vp.num (Real.sqrt (((7:ℚ)/3 : ℚ) : ℝ))) =
        Vp.num (((-(5:ℚ)/3 : ℚ) : ℝ) / Real.sqrt (((7:ℚ)/3 : ℚ) : ℝ)) from by
      simp [vDiv, hσ]] at hsc
    simpa [vNotna, vIsNan] using hsc

/-- C3 counterexample: on the concrete instance, security 4 at month 2 has a
non-null gvkey, both return lags available, a non-null nonzero twice-lagged
ratio, and a month cohort with strictly positive standard deviation — every
condition of the claimed characterization is false — yet its standardized
factor is null (its *current* short interest is missing, a case the claim
omits).  So the claimed "null iff" equivalence is false. -/
theorem standardized_nullity_iff_cex :
    (tX[11]?).map (fun r => (r.gvkey, r.ret_lag1, r.ret_lag2, r.SI_ratio_lag2)) =
      some ((some 4 : Option ℤ), (Vp.num 0 : V), (Vp.num 0 : V), (Vp.num 1 : V)) ∧
    vGt (vStd (monthRaws tX 2)) (Vp.num 0) = true ∧
    ((scStage tX)[11]?).map SRow.ShortConviction = some Vp.nan := by
  refine ⟨by decide, month2_std_pos, ?_⟩
  have hb : tX[11]? = some
      { permno := 4, gvkey := some 4, time_avail_m := 2, ret := Vp.num 0,
        shrout := Vp.num 1, shortint := Vp.nan, SI_ratio := Vp.nan,
        ret_lag1 := Vp.num 0, ret_lag2 := Vp.num 0,
        SI_ratio_lag2 := Vp.num 1, cumret_2m := Vp.num 0,
        SI_pct_change := Vp.nan, ShortConviction_raw := Vp.nan } := by
    decide
  have hsc := scStage_get tX 11 _ hb
  dsimp only at hsc
  simpa [vNotna, vIsNan] using hsc

/-- C1 witness: on the concrete instance, the raw-factor formula holds at
security 1, month 2 (raw `-∞` from `-(+∞) × 1` before clipping). -/
theorem raw_factor_formula_witness :
    (Vp.ninf : V) = vMul (vNeg Vp.pinf) (Vp.num 1) :=
  (raw_factor_formula df2X
    { permno := 1, gvkey := some 1, time_avail_m := 2, ret := Vp.num 0,
      shrout := Vp.num 1, shortint := Vp.num 1, SI_ratio := Vp.num 1,
      ret_lag1 := Vp.num 1, ret_lag2 := Vp.num 0, SI_ratio_lag2 := Vp.num 0,
      cumret_2m := Vp.num 1, SI_pct_change := Vp.pinf,
      ShortConviction_raw := Vp.ninf } (by decide)).1

/-- C4 witness: the amended arithmetic claim at a concrete record — a
nonzero ratio over a zero lagged ratio yields `+∞`. -/
theorem arithmetic_null_propagation_witness :
    (Vp.pinf : V) = (if (0:ℚ) < 1 then Vp.pinf else Vp.ninf) :=
  (arithmetic_null_propagation df2X
    { permno := 1, gvkey := some 1, time_avail_m := 2, ret := Vp.num 0,
      shrout := Vp.num 1, shortint := Vp.num 1, SI_ratio := Vp.num 1,
      ret_lag1 := Vp.num 1, ret_lag2 := Vp.num 0, SI_ratio_lag2 := Vp.num 0,
      cumret_2m := Vp.num 1, SI_pct_change := Vp.pinf,
      ShortConviction_raw := Vp.ninf } (by decide)).2.2.2.2.1
    1 (by norm_num) rfl rfl

/-- C3 (amended) witness: the nullity characterization applied at the
concrete record of security 4, month 2 (null because the current ratio is
null). -/
theorem standardized_nullity_characterization_witness :
    ((scStage (transform df2X))[11]?).map SRow.ShortConviction = some Vp.nan :=
  (standardized_nullity_characterization df2X (by decide) 11
    { permno := 4, gvkey := some 4, time_avail_m := 2, ret := Vp.num 0,
      shrout := Vp.num 1, shortint := Vp.nan, SI_ratio := Vp.nan,
      ret_lag1 := Vp.num 0, ret_lag2 := Vp.num 0,
      SI_ratio_lag2 := Vp.num 1, cumret_2m := Vp.num 0,
      SI_pct_change := Vp.nan, ShortConviction_raw := Vp.nan }
    (by decide)).mpr (Or.inr (Or.inr (Or.inl (by decide))))

/-- C2 witness: standardizing the concrete one-month frame with raws
`[0, 1, 2]` at row 0. -/
theorem standardization_formula_witness :
    ((scStage wRows)[0]?).map SRow.ShortConviction =
      some (Vp.num ((((0:ℚ) : ℝ) - ((sampleMean (cohortVals wRows 0) : ℚ) : ℝ)) /
        Real.sqrt ((sampleVar (cohortVals wRows 0) : ℚ) : ℝ))) :=
  (standardization_formula wRows 0
    { permno := 1, gvkey := some 1, time_avail_m := 0, ret := Vp.nan,
      shrout := Vp.nan, ShortConviction_raw := Vp.num 0 }
    (by decide) (by decide)).1 ⟨by decide, by decide, by decide⟩ 0 rfl

/-- C5 witness: clipping the concrete value 5 at row 0 of a one-row frame. -/
theorem clip_invariant_witness :
    ∃ r : Obs, (addClip [({ permno := 1, gvkey := none, time_avail_m := 0, ret := Vp.nan, shrout := Vp.nan, ShortConviction_raw := Vp.num 5 } : Obs)])[0]? = some r ∧
      r.ShortConviction_raw = vClip (-3 : ℚ) 3 (Vp.num 5) ∧
      (r.ShortConviction_raw = Vp.nan ↔ (Vp.num (5:ℚ) : V) = Vp.nan) ∧
      (∀ q : ℚ, r.ShortConviction_raw = Vp.num q → -3 ≤ q ∧ q ≤ 3) ∧
      (∀ q : ℚ, (Vp.num (5:ℚ) : V) = Vp.num q → 3 < q →
        r.ShortConviction_raw = Vp.num 3) ∧
      (∀ q : ℚ, (Vp.num (5:ℚ) : V) = Vp.num q → q < -3 →
        r.ShortConviction_raw = Vp.num (-3)) ∧
      (∀ q : ℚ, (Vp.num (5:ℚ) : V) = Vp.num q → -3 ≤ q → q ≤ 3 →
        r.ShortConviction_raw = Vp.num q) ∧
      ((Vp.num (5:ℚ) : V) = Vp.pinf → r.ShortConviction_raw = Vp.num (3:ℚ)) ∧
      ((Vp.num (5:ℚ) : V) = Vp.ninf → r.ShortConviction_raw = Vp.num (-3:ℚ)) :=
  clip_invariant [{ permno := 1, gvkey := none, time_avail_m := 0, ret := Vp.nan, shrout := Vp.nan, ShortConviction_raw := Vp.num 5 }] 0
    { permno := 1, gvkey := none, time_avail_m := 0, ret := Vp.nan, shrout := Vp.nan, ShortConviction_raw := Vp.num 5 } rfl

/-- C7 witness: the concrete instance's null-gvkey row (security 5) is
carved out and reattached with a null factor. -/
theorem missing_gvkey_preserved_witness :
    mergeCrsp smX crX = Except.ok df1X ∧
    (pipeline smX crX msX = Except.ok (outputFrame df1X df2X) ∧
      ∀ m ∈ df1X, m.gvkey = none →
        m ∉ validGvkey df1X ∧
        ({ permno := m.permno, time_avail_m := m.time_avail_m,
           ShortConviction := Vp.nan } : OutRow) ∈ outputFrame df1X df2X) :=
  ⟨by decide, missing_gvkey_preserved smX crX msX df1X df2X (by decide) (by decide)⟩

/-- C8 witness: row counts on the concrete instance. -/
theorem output_row_count_witness :
    mergeShort (validGvkey df1X) msX = Except.ok df2X ∧
    (pipeline smX crX msX = Except.ok (outputFrame df1X df2X) ∧
      (outputFrame df1X df2X).length = df1X.length ∧
      df1X.length = (smX.filter fun m =>
        (crX.find? fun c =>
          c.permno == m.permno && c.time_avail_m == m.time_avail_m).isSome).length) :=
  ⟨by decide, output_row_count smX crX msX df1X df2X (by decide) (by decide)⟩

/-- C9 witness: the concrete one-month frame with raws `[0, 1, 2]` has
standardized mean 0 and standard deviation 1. -/
theorem standardized_month_mean_zero_std_one_witness :
    (2 ≤ (cohortVals wRows 0).length ∧ 0 < sampleVar (cohortVals wRows 0)) ∧
    ((scMonthVals wRows 0).length = (cohortVals wRows 0).length ∧
      sampleMean (scMonthVals wRows 0) = 0 ∧
      Real.sqrt (sampleVar (scMonthVals wRows 0)) = 1) :=
  ⟨⟨by decide, by decide⟩,
    standardized_month_mean_zero_std_one wRows 0 (by decide) (by decide) (by decide)⟩

/-- C10 witness: security 9 has no CRSP match on the concrete instance, and
no output row carries its key. -/
theorem unmatched_master_dropped_witness :
    (∀ c ∈ crX, ¬(c.permno = (9:ℤ) ∧ c.time_avail_m = (0:ℤ))) ∧
    (pipeline smX crX msX = Except.ok (outputFrame df1X df2X) ∧
      ∀ o ∈ outputFrame df1X df2X, ¬(o.permno = 9 ∧ o.time_avail_m = 0)) :=
  ⟨by decide, unmatched_master_dropped smX crX msX df1X df2X
    ⟨9, some 9, 0, Vp.num 0⟩ (by decide) (by decide) (by decide)⟩

end ConcreteInstances

end ShortConvictionModel
